import Mathlib

set_option linter.unusedVariables false

/-
Verification development for the `create.ts` project scaffolder
(repository soundstep/app-templates).

The script is shallowly embedded as follows.

* A file-system directory is a finite map from relative paths
  (`RelPath := List String`, one entry per path component) to file contents
  (`String`), represented as an association list `FS`.  Directories that
  contain no files are not represented; the script only ever creates
  directories as a side effect of placing files (`ensureDir`), so every
  claim under verification is about file content.
* The template tree that `Deno.readDir` walks is the mutual inductive
  `Entry`/`EntryList`; the order of an `EntryList` is the order in which
  `readDir` yields the entries.
* The GitHub contents API is the mutual inductive `RListing`/`RItems`/
  `RItem`: for each requested repo path the server answers with a listing
  (`.ok items`), a 404 (`.notFound`), another non-ok status
  (`.failedOther`), or a non-array body (`.notArray`).
* Fallible Deno calls (`Deno.copyFile` for backups, `Deno.remove`,
  `Deno.copyFile`/`Deno.writeTextFile` for the real copy, temp-dir
  cleanup) are driven by the oracle `FaultModel`: the oracle says, per
  path, whether that call throws.
* `Deno.exit` is modelled with `Except`: an `.error` result is a call to
  `Deno.exit` carrying the exit code and the state at that moment.
* `console.log`/`console.error` output is a `List LogMsg`; each
  constructor stands for one message the script prints.
* `repoPath.startsWith('templates/')` is modelled by `strStartsWith`,
  a character-level prefix test on the string data (byte-level and
  character-level prefix tests agree on UTF-8 strings; the character
  version is kernel-computable).
-/

instance {α β : Type} [DecidableEq α] [DecidableEq β] : DecidableEq (Except α β) :=
  fun a b =>
    match a, b with
    | .ok x, .ok y => if h : x = y then isTrue (by rw [h]) else isFalse (by intro hc; injection hc; contradiction)
    | .error x, .error y => if h : x = y then isTrue (by rw [h]) else isFalse (by intro hc; injection hc; contradiction)
    | .ok _, .error _ => isFalse (by intro hc; injection hc)
    | .error _, .ok _ => isFalse (by intro hc; injection hc)

abbrev RelPath := List String

abbrev FS := List (RelPath × String)

def lookupFS : FS → RelPath → Option String
  | [], _ => none
  | (q, d) :: rest, p => if q = p then some d else lookupFS rest p

def setFS : FS → RelPath → String → FS
  | [], p, c => [(p, c)]
  | (q, d) :: rest, p, c => if q = p then (p, c) :: rest else (q, d) :: setFS rest p c

def eraseFS : FS → RelPath → FS
  | [], _ => []
  | (q, d) :: rest, p => if q = p then eraseFS rest p else (q, d) :: eraseFS rest p

/-- The backup path `` `${destPath}.backup` ``: the `.backup` suffix is
appended to the final path component. -/
def backupPath : RelPath → RelPath
  | [] => []
  | [s] => [s ++ ".backup"]
  | s :: rest => s :: backupPath rest

/-- Character-level model of `String.startsWith`. -/
def strStartsWith (s p : String) : Bool := p.data.isPrefixOf s.data

/-- One console message per constructor, matching the `console.log` /
`console.error` calls of `create.ts`. -/
inductive LogMsg where
  | createdBackup (p : RelPath)
  | backupError (p : RelPath)
  | copyFileError (p : RelPath)
  | errorCopyingFiles
  | fetchError (rp : String)
  | templateNotFound
  | templateNotFoundLocal (name : String)
  | unexpectedFormat (rp : String)
  | errorDownloading (name : String)
  | fetchingFromGitHub
  | availableHeader
  | templateListEntry (name : String)
  | listError
  | usage
  | warnDirNotEmpty
  | previewHeader
  | previewFile (p : RelPath) (willOverride : Bool)
  | aborting
  | copyingMsg
  | successMsg
  | navigationHint (name : String)
  | errorCopyingTemplate
  | cleanupWarning
  deriving Repr, DecidableEq

instance exitStateDecEq : DecidableEq (Nat × Option FS × List LogMsg) := by
  have h1 : DecidableEq (Option FS) := inferInstance
  have h2 : DecidableEq (List LogMsg) := inferInstance
  have h3 : DecidableEq (Option FS × List LogMsg) := @instDecidableEqProd _ _ h1 h2
  exact @instDecidableEqProd _ _ inferInstance h3

/-- Fault oracle: which fallible runtime calls throw, per destination path. -/
structure FaultModel where
  backupFails : RelPath → Bool
  removeFails : RelPath → Bool
  copyFails : RelPath → Bool
  dlFails : RelPath → Bool
  removeTempFails : Bool

def noFaults : FaultModel :=
  { backupFails := fun _ => false
    removeFails := fun _ => false
    copyFails := fun _ => false
    dlFails := fun _ => false
    removeTempFails := false }

mutual
/-- A directory entry as yielded by `Deno.readDir`. -/
inductive Entry where
  | file (name : String) (content : String)
  | dir (name : String) (sub : EntryList)
  deriving Repr, DecidableEq
/-- A directory listing, in `readDir` order. -/
inductive EntryList where
  | nil
  | cons (e : Entry) (rest : EntryList)
  deriving Repr, DecidableEq
end

mutual
/-- The files below one entry, with their relative paths, in depth-first
`readDir` order. -/
def filesOf : Entry → RelPath → List (RelPath × String)
  | .file n c, rel => [(rel ++ [n], c)]
  | .dir n sub, rel => filesOfL sub (rel ++ [n])
/-- The files below a directory listing, depth-first. -/
def filesOfL : EntryList → RelPath → List (RelPath × String)
  | .nil, _ => []
  | .cons e rest, rel => filesOf e rel ++ filesOfL rest rel
end

/-- Names of the directory entries of a listing, in order (used by the
`list` command and by `showUsage`, which print directories only). -/
def dirNamesL : EntryList → List String
  | .nil => []
  | .cons (.dir n _) rest => n :: dirNamesL rest
  | .cons (.file _ _) rest => dirNamesL rest

/-- Local template resolution: the subdirectory of the templates root with
the given name (`join(basePath, TEMPLATES_DIR, templateName)`).  A plain
file of that name is not a usable template. -/
def findTemplateL : EntryList → String → Option EntryList
  | .nil, _ => none
  | .cons (.dir n sub) rest, name =>
      if n = name then some sub else findTemplateL rest name
  | .cons (.file _ _) rest, name => findTemplateL rest name

/-!
## The copy step: `copyFilesIndividually` (create.ts lines 57 to 105)

`processFile` is the body of the file branch: check `exists(destPath)`;
if the file exists, try to `Deno.copyFile` it to `destPath + ".backup"`
(a failure is only logged); then `Deno.remove` the original (if it
existed) and `Deno.copyFile` the template content into place; a failure
of that second block is logged and rethrown.
-/

def processFile (fm : FaultModel) (p : RelPath) (c : String) (fs : FS)
    (lg : List LogMsg) : Except (FS × List LogMsg) (FS × List LogMsg) :=
  let fileExists := (lookupFS fs p).isSome
  let fs1 := if fileExists && !(fm.backupFails p) then
      setFS fs (backupPath p) ((lookupFS fs p).getD "") else fs
  let lg1 := lg ++ (if fileExists then
      (if fm.backupFails p then [.backupError p] else [.createdBackup p]) else [])
  if fileExists then
    if fm.removeFails p then .error (fs1, lg1 ++ [.copyFileError p])
    else if fm.copyFails p then .error (eraseFS fs1 p, lg1 ++ [.copyFileError p])
    else .ok (setFS (eraseFS fs1 p) p c, lg1)
  else
    if fm.copyFails p then .error (fs1, lg1 ++ [.copyFileError p])
    else .ok (setFS fs1 p c, lg1)

/-- The recursive walk of `copyFilesIndividually`: process the entries of
one listing in order.  A directory entry recurses into the subdirectory;
the recursive invocation has its own try/catch, which logs
`Error copying files` and rethrows. -/
def copyWalk (fm : FaultModel) : EntryList → RelPath → FS → List LogMsg →
    Except (FS × List LogMsg) (FS × List LogMsg)
  | .nil, _, fs, lg => .ok (fs, lg)
  | .cons (.file n c) rest, rel, fs, lg =>
    match processFile fm (rel ++ [n]) c fs lg with
    | .error r => .error r
    | .ok (fs', lg') => copyWalk fm rest rel fs' lg'
  | .cons (.dir n sub) rest, rel, fs, lg =>
    match copyWalk fm sub (rel ++ [n]) fs lg with
    | .error (fs', lg') => .error (fs', lg' ++ [.errorCopyingFiles])
    | .ok (fs', lg') => copyWalk fm rest rel fs' lg'

/-- `copyFilesIndividually(src, dest)`: the outer call, whose try/catch
also logs `Error copying files` before rethrowing. -/
def copyFilesIndividually (fm : FaultModel) (t : EntryList) (rel : RelPath)
    (fs : FS) (lg : List LogMsg) : Except (FS × List LogMsg) (FS × List LogMsg) :=
  match copyWalk fm t rel fs lg with
  | .error (fs', lg') => .error (fs', lg' ++ [.errorCopyingFiles])
  | .ok r => .ok r

/-- The copy step over the depth-first file list of the source directory.
`copyFilesIndividually_eq_ok` and `copyFilesIndividually_eq_error` below
show this agrees with the tree walk; it also serves as the copy step for
a remote run, whose source is the flat downloaded temp directory. -/
def copyFiles (fm : FaultModel) : List (RelPath × String) → FS → List LogMsg →
    Except (FS × List LogMsg) (FS × List LogMsg)
  | [], fs, lg => .ok (fs, lg)
  | (p, c) :: rest, fs, lg =>
    match processFile fm p c fs lg with
    | .error r => .error r
    | .ok (fs', lg') => copyFiles fm rest fs' lg'

/-!
## The remote fetch: `downloadFromGitHub` (create.ts lines 110 to 175)
-/

mutual
/-- The server's answer for one repo path. -/
inductive RListing where
  | ok (items : RItems)
  | notFound
  | failedOther
  | notArray
  deriving Repr, DecidableEq
/-- The items of a directory listing, in response order. -/
inductive RItems where
  | nil
  | cons (i : RItem) (rest : RItems)
  deriving Repr, DecidableEq
/-- One item of a listing; a `dir` item carries the answer the server
gives when the recursion lists that subdirectory. -/
inductive RItem where
  | dir (name : String) (sub : RListing)
  | file (name : String) (content : String)
  deriving Repr, DecidableEq
end

mutual
/-- `downloadFromGitHub(repoPath, localPath)`: list `repoPath`; on a
non-ok response log the error, and additionally exit 1 when the path
starts with `templates/` and the status is 404; on a non-array body log
and return; otherwise process the items. -/
def downloadFromGitHub (fm : FaultModel) (rp : String) (lp : RelPath)
    (listing : RListing) (fs : FS) (lg : List LogMsg) :
    Except (FS × List LogMsg) (FS × List LogMsg) :=
  match listing with
  | .notFound =>
    if strStartsWith rp "templates/" then
      .error (fs, lg ++ [.fetchError rp, .templateNotFound])
    else .ok (fs, lg ++ [.fetchError rp])
  | .failedOther => .ok (fs, lg ++ [.fetchError rp])
  | .notArray => .ok (fs, lg ++ [.unexpectedFormat rp])
  | .ok items => downloadItems fm rp lp items fs lg

/-- The `for (const item of items)` loop: a `dir` item recurses with
`repoPath + "/" + name`; a `file` item is fetched and written, with a
backup of a pre-existing file at the same temp path; any error of the
per-file block is logged and the loop continues. -/
def downloadItems (fm : FaultModel) (rp : String) (lp : RelPath)
    (items : RItems) (fs : FS) (lg : List LogMsg) :
    Except (FS × List LogMsg) (FS × List LogMsg) :=
  match items with
  | .nil => .ok (fs, lg)
  | .cons i rest =>
    match downloadItem fm rp lp i fs lg with
    | .error r => .error r
    | .ok (fs', lg') => downloadItems fm rp lp rest fs' lg'

/-- One item of the download loop. -/
def downloadItem (fm : FaultModel) (rp : String) (lp : RelPath) (i : RItem)
    (fs : FS) (lg : List LogMsg) :
    Except (FS × List LogMsg) (FS × List LogMsg) :=
  match i with
  | .dir name sub =>
    downloadFromGitHub fm (rp ++ "/" ++ name) (lp ++ [name]) sub fs lg
  | .file name content =>
    let ip := lp ++ [name]
    let fileExists := (lookupFS fs ip).isSome
    let fs1 := if fileExists && !(fm.backupFails ip) then
        setFS fs (backupPath ip) ((lookupFS fs ip).getD "") else fs
    let lg1 := lg ++ (if fileExists then
        (if fm.backupFails ip then [.backupError ip] else [.createdBackup ip]) else [])
    if fm.dlFails ip then .ok (fs1, lg1 ++ [.errorDownloading name])
    else .ok ((if fileExists then setFS (eraseFS fs1 ip) ip content
               else setFS fs1 ip content), lg1)
end

mutual
/-- No listing request anywhere in the tree answers 404. -/
def noNotFoundL : RListing → Bool
  | .notFound => false
  | .failedOther => true
  | .notArray => true
  | .ok items => noNotFoundI items
def noNotFoundI : RItems → Bool
  | .nil => true
  | .cons i rest => noNotFoundItem i && noNotFoundI rest
def noNotFoundItem : RItem → Bool
  | .dir _ sub => noNotFoundL sub
  | .file _ _ => true
end

/-!
## CLI argument parsing (create.ts lines 296 to 311)
-/

structure CliOptions where
  templateName : String
  projectName : String
  isCurrentDir : Bool
  deriving Repr, DecidableEq

/-- JavaScript `a || b` on an optional string: an absent or empty (falsy)
`a` yields `b`. -/
def jsOrElse : Option String → String → String
  | some s, b => if s = "" then b else s
  | none, b => b

/-- `parseCliArguments`: `Deno.args[0]` is the template name,
`Deno.args[1] || templateName` the project name; a project name equal to
`"."`, `"./"`, `""` or `Deno.cwd()` marks the current directory and is
canonicalized to `"."`. -/
def parseCliArguments (args : List String) (cwd : String) : CliOptions :=
  let templateName := args.headD ""
  let projectName := jsOrElse args[1]? templateName
  let isCurrentDir :=
    projectName == "." || projectName == "./" || projectName == "" || projectName == cwd
  { templateName := templateName
    projectName := if isCurrentDir then "." else projectName
    isCurrentDir := isCurrentDir }

/-!
## `createProject` (create.ts lines 245 to 291) and `main` (lines 362 to 405)
-/

/-- The file lines printed by `listFilesAndCheckOverlap`: one line per
template file, flagged when a destination file of the same relative path
already exists.  The function only reads; it never writes. -/
def previewFiles (srcFiles : List (RelPath × String)) (fs : FS) : List LogMsg :=
  srcFiles.map (fun pc => .previewFile pc.1 ((lookupFS fs pc.1).isSome))

/-- The copy block of `createProject`: run the copy; on success print the
success message and, unless the project is the current directory, the
navigation hint; on failure log and `Deno.exit(1)`. -/
def createProjectCopy (fm : FaultModel) (srcFiles : List (RelPath × String))
    (opts : CliOptions) (fs : FS) (lg : List LogMsg) :
    Except (Nat × Option FS × List LogMsg) (FS × List LogMsg) :=
  match copyFiles fm srcFiles fs (lg ++ [.copyingMsg]) with
  | .ok (fs', lg') =>
    .ok (fs', lg' ++ [.successMsg] ++
      (if opts.isCurrentDir then [] else [.navigationHint opts.projectName]))
  | .error (fs', lg') => .error (1, some fs', lg' ++ [.errorCopyingTemplate])

/-- `createProject`: an absent destination is created empty; a non-empty
destination gets the preview and the confirmation prompt, and a declined
prompt prints `Aborting.` and exits 0; then the copy block runs.
An `.error` result is a `Deno.exit` with the given code, the destination
directory at that moment, and the log. -/
def createProject (fm : FaultModel) (srcFiles : List (RelPath × String))
    (opts : CliOptions) (confirmAnswer : Bool) (dest0 : Option FS)
    (lg : List LogMsg) : Except (Nat × Option FS × List LogMsg) (FS × List LogMsg) :=
  match dest0 with
  | some fs =>
    if fs.isEmpty then createProjectCopy fm srcFiles opts fs lg
    else
      let lg1 := lg ++ [.warnDirNotEmpty, .previewHeader] ++ previewFiles srcFiles fs
      if confirmAnswer then createProjectCopy fm srcFiles opts fs lg1
      else .error (0, some fs, lg1 ++ [.aborting])
  | none => createProjectCopy fm srcFiles opts [] lg

/-- One invocation's environment: how the tool was launched, the
arguments, the local templates root, the remote repository, and the
user's answer to the confirmation prompt. -/
structure Env where
  isRemote : Bool
  args : List String
  cwd : String
  localRoot : EntryList
  remoteTemplates : String → RListing
  remoteRoot : RListing
  confirmAnswer : Bool

/-- What one run leaves behind: the process exit code, the destination
directory, whether the remote temp directory still exists, and the log. -/
structure Outcome where
  code : Nat
  dest : Option FS
  tempExists : Bool
  log : List LogMsg
  deriving Repr, DecidableEq

/-- Names of the directory items of a remote listing, in order. -/
def itemDirNames : RItems → List String
  | .nil => []
  | .cons (.dir n _) rest => n :: itemDirNames rest
  | .cons (.file _ _) rest => itemDirNames rest

/-- The template names printed by `listTemplates` / `showUsage`:
directory entries only, local from `readDirSync`, remote from the
listing of `templates` (a failed remote listing is only an error line). -/
def templatesLog (env : Env) : List LogMsg :=
  if env.isRemote then
    match env.remoteRoot with
    | .ok items => (itemDirNames items).map LogMsg.templateListEntry
    | _ => [.listError]
  else (dirNamesL env.localRoot).map LogMsg.templateListEntry

/-- The names a log prints as template list entries. -/
def printedTemplates : List LogMsg → List String
  | [] => []
  | .templateListEntry n :: rest => n :: printedTemplates rest
  | _ :: rest => printedTemplates rest

/-- `main`: parse the arguments; `list` lists and exits 0; a missing
template name prints usage and exits 1; otherwise fetch the template
(remote: download `templates/<name>` into a fresh temp directory; local:
resolve the subdirectory), run `createProject` against
`join(Deno.cwd(), projectName)`, and for a remote run remove the temp
directory, a failure of which is only a warning. -/
def mainModel (env : Env) (fm : FaultModel) (dest0 : Option FS) : Outcome :=
  let opts := parseCliArguments env.args env.cwd
  if opts.templateName = "list" then
    { code := 0, dest := dest0, tempExists := false
      log := [.availableHeader] ++ templatesLog env }
  else if opts.templateName = "" then
    { code := 1, dest := dest0, tempExists := false
      log := [.usage, .availableHeader] ++ templatesLog env }
  else if env.isRemote then
    match downloadFromGitHub fm ("templates/" ++ opts.templateName) []
        (env.remoteTemplates opts.templateName) [] [.fetchingFromGitHub] with
    | .error (_, lg) =>
      { code := 1, dest := dest0, tempExists := true, log := lg }
    | .ok (tfs, lg) =>
      match createProject fm tfs opts env.confirmAnswer dest0 lg with
      | .error (c, d, lg') =>
        { code := c, dest := d, tempExists := true, log := lg' }
      | .ok (fs', lg') =>
        if fm.removeTempFails then
          { code := 0, dest := some fs', tempExists := true
            log := lg' ++ [.cleanupWarning] }
        else
          { code := 0, dest := some fs', tempExists := false, log := lg' }
  else
    match findTemplateL env.localRoot opts.templateName with
    | none =>
      { code := 1, dest := dest0, tempExists := false
        log := [.templateNotFoundLocal opts.templateName] }
    | some t =>
      match createProject fm (filesOfL t []) opts env.confirmAnswer dest0 [] with
      | .error (c, d, lg') =>
        { code := c, dest := d, tempExists := false, log := lg' }
      | .ok (fs', lg') =>
        { code := 0, dest := some fs', tempExists := false, log := lg' }

/-- Did the computation call `Deno.exit`? -/
def exited {α β : Type} : Except α β → Bool
  | .error _ => true
  | .ok _ => false

/-- The file-system component of a copy or download result, whether it
finished or exited. -/
def fsOf : Except (FS × List LogMsg) (FS × List LogMsg) → FS
  | .ok r => r.1
  | .error r => r.1

/-- The log component of a copy or download result. -/
def logOf : Except (FS × List LogMsg) (FS × List LogMsg) → List LogMsg
  | .ok r => r.2
  | .error r => r.2


/-!
## Basic lemmas about the file-system map
-/

theorem lookupFS_setFS_self (fs : FS) (p : RelPath) (c : String) :
    lookupFS (setFS fs p c) p = some c := by
  induction fs with
  | nil => simp [setFS, lookupFS]
  | cons hd rest ih =>
    obtain ⟨q, d⟩ := hd
    by_cases h : q = p <;> simp [setFS, lookupFS, h, ih]

theorem lookupFS_setFS_ne (fs : FS) (p q : RelPath) (c : String) (h : q ≠ p) :
    lookupFS (setFS fs p c) q = lookupFS fs q := by
  have h' : p ≠ q := Ne.symm h
  induction fs with
  | nil => simp [setFS, lookupFS, h']
  | cons hd rest ih =>
    obtain ⟨r, d⟩ := hd
    by_cases hr : r = p
    · subst hr
      simp [setFS, lookupFS, h']
    · simp only [setFS, if_neg hr]
      by_cases hq : r = q <;> simp [lookupFS, hq, ih]

theorem lookupFS_eraseFS_ne (fs : FS) (p q : RelPath) (h : q ≠ p) :
    lookupFS (eraseFS fs p) q = lookupFS fs q := by
  have h' : p ≠ q := Ne.symm h
  induction fs with
  | nil => simp [eraseFS]
  | cons hd rest ih =>
    obtain ⟨r, d⟩ := hd
    by_cases hr : r = p
    · subst hr
      simp [eraseFS, lookupFS, h', ih]
    · simp only [eraseFS, if_neg hr]
      by_cases hq : r = q <;> simp [lookupFS, hq, ih]

/-!
## Lemmas about `backupPath`
-/

theorem string_append_cancel (a b s : String) (h : a ++ s = b ++ s) : a = b := by
  apply String.ext
  have h2 := congrArg String.data h
  simp only [String.data_append] at h2
  exact List.append_cancel_right h2

theorem backupPath_inj : ∀ {p q : RelPath}, backupPath p = backupPath q → p = q := by
  intro p
  induction p with
  | nil =>
    intro q h
    cases q with
    | nil => rfl
    | cons b bs => cases bs <;> simp [backupPath] at h
  | cons a as ih =>
    intro q h
    cases q with
    | nil => cases as <;> simp [backupPath] at h
    | cons b bs =>
      cases as with
      | nil =>
        cases bs with
        | nil =>
          simp only [backupPath, List.cons.injEq, and_true] at h
          rw [string_append_cancel a b _ h]
        | cons c cs => cases cs <;> simp [backupPath] at h
      | cons c cs =>
        cases bs with
        | nil => cases cs <;> simp [backupPath] at h
        | cons d ds =>
          simp only [backupPath, List.cons.injEq] at h
          obtain ⟨h1, h2⟩ := h
          rw [h1, ih h2]

theorem strStartsWith_append (p s : String) : strStartsWith (p ++ s) p = true := by
  simp [strStartsWith, String.data_append, List.isPrefixOf_iff_prefix]

/-!
## The effect of the copy step, in closed form

For a fault model under which the remove/copy pair never throws
(`writeSafe`), one iteration of the file branch of
`copyFilesIndividually` maps the destination `fs` to `stepFS fm fs p c`
and prints `stepLog fm fs p`; the whole flat copy maps `fs` to
`applyList fm l fs` and prints `extraLog fm l fs`.
-/

def writeSafe (fm : FaultModel) : Prop :=
  (∀ p, fm.removeFails p = false) ∧ (∀ p, fm.copyFails p = false)

def stepFS (fm : FaultModel) (fs : FS) (p : RelPath) (c : String) : FS :=
  let fileExists := (lookupFS fs p).isSome
  let fs1 := if fileExists && !(fm.backupFails p) then
      setFS fs (backupPath p) ((lookupFS fs p).getD "") else fs
  if fileExists then setFS (eraseFS fs1 p) p c else setFS fs1 p c

def stepLog (fm : FaultModel) (fs : FS) (p : RelPath) : List LogMsg :=
  if (lookupFS fs p).isSome then
    (if fm.backupFails p then [.backupError p] else [.createdBackup p]) else []

def applyList (fm : FaultModel) : List (RelPath × String) → FS → FS
  | [], fs => fs
  | (p, c) :: rest, fs => applyList fm rest (stepFS fm fs p c)

def extraLog (fm : FaultModel) : List (RelPath × String) → FS → List LogMsg
  | [], _ => []
  | (p, c) :: rest, fs => stepLog fm fs p ++ extraLog fm rest (stepFS fm fs p c)

theorem processFile_writeSafe (fm : FaultModel) (hw : writeSafe fm)
    (p : RelPath) (c : String) (fs : FS) (lg : List LogMsg) :
    processFile fm p c fs lg = .ok (stepFS fm fs p c, lg ++ stepLog fm fs p) := by
  obtain ⟨hr, hc⟩ := hw
  by_cases he : (lookupFS fs p).isSome <;>
    simp [processFile, stepFS, stepLog, hr p, hc p, he]

theorem copyFiles_writeSafe (fm : FaultModel) (hw : writeSafe fm) :
    ∀ (l : List (RelPath × String)) (fs : FS) (lg : List LogMsg),
    copyFiles fm l fs lg = .ok (applyList fm l fs, lg ++ extraLog fm l fs) := by
  intro l
  induction l with
  | nil => intro fs lg; simp [copyFiles, applyList, extraLog]
  | cons pc rest ih =>
    intro fs lg
    obtain ⟨p, c⟩ := pc
    simp [copyFiles, processFile_writeSafe fm hw, applyList, extraLog, ih,
      List.append_assoc]

def pathsOf (l : List (RelPath × String)) : List RelPath := l.map Prod.fst

@[simp] theorem pathsOf_nil : pathsOf [] = [] := rfl

@[simp] theorem pathsOf_cons (pc : RelPath × String) (l : List (RelPath × String)) :
    pathsOf (pc :: l) = pc.1 :: pathsOf l := rfl

/-- A well-formed copy source: no two files share a relative path (file
names inside one directory are unique), and no file has the name another
file's backup would use. -/
def goodSrc (l : List (RelPath × String)) : Prop :=
  (pathsOf l).Nodup ∧ ∀ pc ∈ l, ∀ pc' ∈ l, pc.1 ≠ backupPath pc'.1

instance goodSrc_decidable (l : List (RelPath × String)) : Decidable (goodSrc l) := by
  unfold goodSrc
  infer_instance

theorem goodSrc_tail {pc : RelPath × String} {l : List (RelPath × String)}
    (h : goodSrc (pc :: l)) : goodSrc l := by
  obtain ⟨h1, h2⟩ := h
  exact ⟨(List.nodup_cons.mp h1).2,
    fun a ha b hb => h2 a (List.mem_cons_of_mem _ ha) b (List.mem_cons_of_mem _ hb)⟩

theorem stepFS_lookup_self (fm : FaultModel) (fs : FS) (p : RelPath) (c : String) :
    lookupFS (stepFS fm fs p c) p = some c := by
  by_cases he : (lookupFS fs p).isSome <;>
    simp [stepFS, he, lookupFS_setFS_self]

theorem stepFS_lookup_other (fm : FaultModel) (fs : FS) (p : RelPath) (c : String)
    (q : RelPath) (h1 : q ≠ p) (h2 : q ≠ backupPath p) :
    lookupFS (stepFS fm fs p c) q = lookupFS fs q := by
  by_cases he : (lookupFS fs p).isSome <;> by_cases hb : fm.backupFails p <;>
    simp [stepFS, he, hb, lookupFS_setFS_ne _ _ _ _ h1,
      lookupFS_eraseFS_ne _ _ _ h1, lookupFS_setFS_ne _ _ _ _ h2]

theorem stepFS_lookup_backup (fm : FaultModel) (fs : FS) (p : RelPath) (c : String)
    (he : (lookupFS fs p).isSome = true) (hb : fm.backupFails p = false)
    (hne : backupPath p ≠ p) :
    lookupFS (stepFS fm fs p c) (backupPath p) = lookupFS fs p := by
  obtain ⟨v, hv⟩ := Option.isSome_iff_exists.mp he
  simp [stepFS, hv, hb, lookupFS_setFS_ne _ _ _ _ hne,
    lookupFS_eraseFS_ne _ _ _ hne, lookupFS_setFS_self]

theorem stepFS_lookup_backup_skip (fm : FaultModel) (fs : FS) (p : RelPath)
    (c : String) (h : fm.backupFails p = true ∨ lookupFS fs p = none)
    (hne : backupPath p ≠ p) :
    lookupFS (stepFS fm fs p c) (backupPath p) = lookupFS fs (backupPath p) := by
  rcases h with hb | he
  · by_cases hex : (lookupFS fs p).isSome <;>
      simp [stepFS, hb, hex, lookupFS_setFS_ne _ _ _ _ hne,
        lookupFS_eraseFS_ne _ _ _ hne]
  · simp [stepFS, he, lookupFS_setFS_ne _ _ _ _ hne]

theorem stepFS_fresh (fm : FaultModel) (fs : FS) (p : RelPath) (c : String)
    (h : lookupFS fs p = none) : stepFS fm fs p c = setFS fs p c := by
  simp [stepFS, h]

theorem applyList_frame (fm : FaultModel) :
    ∀ (l : List (RelPath × String)) (fs : FS) (q : RelPath),
    q ∉ pathsOf l → (∀ pc ∈ l, q ≠ backupPath pc.1) →
    lookupFS (applyList fm l fs) q = lookupFS fs q := by
  intro l
  induction l with
  | nil => intro fs q _ _; rfl
  | cons pc rest ih =>
    intro fs q hq hqb
    obtain ⟨p, c⟩ := pc
    have h1 : q ≠ p := fun h => hq (by simp [h])
    have h2 : q ≠ backupPath p := hqb (p, c) (List.mem_cons_self _ _)
    have hq' : q ∉ pathsOf rest := fun h => hq (by simp [h])
    have hqb' : ∀ pc ∈ rest, q ≠ backupPath pc.1 :=
      fun a ha => hqb a (List.mem_cons_of_mem _ ha)
    calc lookupFS (applyList fm ((p, c) :: rest) fs) q
        = lookupFS (applyList fm rest (stepFS fm fs p c)) q := rfl
      _ = lookupFS (stepFS fm fs p c) q := ih _ _ hq' hqb'
      _ = lookupFS fs q := stepFS_lookup_other fm fs p c q h1 h2

theorem applyList_content (fm : FaultModel) :
    ∀ (l : List (RelPath × String)), goodSrc l → ∀ (fs : FS) (p : RelPath)
    (c : String), (p, c) ∈ l → lookupFS (applyList fm l fs) p = some c := by
  intro l
  induction l with
  | nil => intro _ fs p c h; cases h
  | cons pc rest ih =>
    intro hg fs p c hmem
    obtain ⟨p0, c0⟩ := pc
    have hnd := hg.1
    rcases List.mem_cons.mp hmem with heq | hrest
    · injection heq with hp hc
      subst hp; subst hc
      have hp0 : p ∉ pathsOf rest := by
        simp only [pathsOf_cons] at hnd
        exact (List.nodup_cons.mp hnd).1
      have hpb : ∀ pc' ∈ rest, p ≠ backupPath pc'.1 := fun a ha =>
        hg.2 (p, c) (List.mem_cons_self _ _) a (List.mem_cons_of_mem _ ha)
      calc lookupFS (applyList fm ((p, c) :: rest) fs) p
          = lookupFS (applyList fm rest (stepFS fm fs p c)) p := rfl
        _ = lookupFS (stepFS fm fs p c) p := applyList_frame fm rest _ p hp0 hpb
        _ = some c := stepFS_lookup_self fm fs p c
    · have hp0 : p0 ∉ pathsOf rest := by
        simp only [pathsOf_cons] at hnd
        exact (List.nodup_cons.mp hnd).1
      have hne : p ≠ p0 := by
        intro h; subst h
        exact hp0 (by simpa [pathsOf] using List.mem_map_of_mem Prod.fst hrest)
      exact ih (goodSrc_tail hg) _ _ _ hrest

theorem applyList_backup (fm : FaultModel) :
    ∀ (l : List (RelPath × String)), goodSrc l → ∀ (fs : FS) (p : RelPath)
    (c : String), (p, c) ∈ l → (lookupFS fs p).isSome = true →
    fm.backupFails p = false →
    lookupFS (applyList fm l fs) (backupPath p) = lookupFS fs p := by
  intro l
  induction l with
  | nil => intro _ fs p c h; cases h
  | cons pc rest ih =>
    intro hg fs p c hmem he hb
    obtain ⟨p0, c0⟩ := pc
    have hnd := hg.1
    have hp0 : p0 ∉ pathsOf rest := by
      simp only [pathsOf_cons] at hnd
      exact (List.nodup_cons.mp hnd).1
    rcases List.mem_cons.mp hmem with heq | hrest
    · injection heq with hp hc
      subst hp; subst hc
      have hself : backupPath p ≠ p :=
        Ne.symm (hg.2 (p, c) (List.mem_cons_self _ _) (p, c) (List.mem_cons_self _ _))
      have hnotp : backupPath p ∉ pathsOf rest := by
        intro hin
        obtain ⟨a, ha, hfst⟩ := List.mem_map.mp hin
        exact hg.2 a (List.mem_cons_of_mem _ ha) (p, c) (List.mem_cons_self _ _) hfst
      have hnotb : ∀ pc' ∈ rest, backupPath p ≠ backupPath pc'.1 := by
        intro a ha hcontra
        have := backupPath_inj hcontra
        apply hp0
        rw [this]
        exact List.mem_map_of_mem Prod.fst ha
      calc lookupFS (applyList fm ((p, c) :: rest) fs) (backupPath p)
          = lookupFS (applyList fm rest (stepFS fm fs p c)) (backupPath p) := rfl
        _ = lookupFS (stepFS fm fs p c) (backupPath p) :=
            applyList_frame fm rest _ _ hnotp hnotb
        _ = lookupFS fs p := stepFS_lookup_backup fm fs p c he hb hself
    · have hne : p ≠ p0 := by
        intro h; subst h
        exact hp0 (List.mem_map_of_mem Prod.fst hrest)
      have hneb : p ≠ backupPath p0 :=
        hg.2 (p, c) (List.mem_cons_of_mem _ hrest) (p0, c0) (List.mem_cons_self _ _)
      have hpres : lookupFS (stepFS fm fs p0 c0) p = lookupFS fs p :=
        stepFS_lookup_other fm fs p0 c0 p hne hneb
      calc lookupFS (applyList fm ((p0, c0) :: rest) fs) (backupPath p)
          = lookupFS (applyList fm rest (stepFS fm fs p0 c0)) (backupPath p) := rfl
        _ = lookupFS (stepFS fm fs p0 c0) p :=
            ih (goodSrc_tail hg) _ _ _ hrest (by rw [hpres]; exact he) hb
        _ = lookupFS fs p := hpres

theorem applyList_backup_skip (fm : FaultModel) :
    ∀ (l : List (RelPath × String)), goodSrc l → ∀ (fs : FS) (p : RelPath)
    (c : String), (p, c) ∈ l →
    (fm.backupFails p = true ∨ lookupFS fs p = none) →
    lookupFS (applyList fm l fs) (backupPath p) = lookupFS fs (backupPath p) := by
  intro l
  induction l with
  | nil => intro _ fs p c h; cases h
  | cons pc rest ih =>
    intro hg fs p c hmem hcond
    obtain ⟨p0, c0⟩ := pc
    have hnd := hg.1
    have hp0 : p0 ∉ pathsOf rest := by
      simp only [pathsOf_cons] at hnd
      exact (List.nodup_cons.mp hnd).1
    rcases List.mem_cons.mp hmem with heq | hrest
    · injection heq with hp hc
      subst hp; subst hc
      have hself : backupPath p ≠ p :=
        Ne.symm (hg.2 (p, c) (List.mem_cons_self _ _) (p, c) (List.mem_cons_self _ _))
      have hnotp : backupPath p ∉ pathsOf rest := by
        intro hin
        obtain ⟨a, ha, hfst⟩ := List.mem_map.mp hin
        exact hg.2 a (List.mem_cons_of_mem _ ha) (p, c) (List.mem_cons_self _ _) hfst
      have hnotb : ∀ pc' ∈ rest, backupPath p ≠ backupPath pc'.1 := by
        intro a ha hcontra
        have := backupPath_inj hcontra
        apply hp0
        rw [this]
        exact List.mem_map_of_mem Prod.fst ha
      calc lookupFS (applyList fm ((p, c) :: rest) fs) (backupPath p)
          = lookupFS (applyList fm rest (stepFS fm fs p c)) (backupPath p) := rfl
        _ = lookupFS (stepFS fm fs p c) (backupPath p) :=
            applyList_frame fm rest _ _ hnotp hnotb
        _ = lookupFS fs (backupPath p) :=
            stepFS_lookup_backup_skip fm fs p c hcond hself
    · have hne : p ≠ p0 := by
        intro h; subst h
        exact hp0 (List.mem_map_of_mem Prod.fst hrest)
      have hneb : p ≠ backupPath p0 :=
        hg.2 (p, c) (List.mem_cons_of_mem _ hrest) (p0, c0) (List.mem_cons_self _ _)
      have hbne : backupPath p ≠ p0 :=
        Ne.symm (hg.2 (p0, c0) (List.mem_cons_self _ _) (p, c) (List.mem_cons_of_mem _ hrest))
      have hbnb : backupPath p ≠ backupPath p0 := by
        intro hcontra
        exact hne (backupPath_inj hcontra)
      have hpres : lookupFS (stepFS fm fs p0 c0) p = lookupFS fs p :=
        stepFS_lookup_other fm fs p0 c0 p hne hneb
      have hpresb : lookupFS (stepFS fm fs p0 c0) (backupPath p) =
          lookupFS fs (backupPath p) :=
        stepFS_lookup_other fm fs p0 c0 (backupPath p) hbne hbnb
      have hcond' : fm.backupFails p = true ∨ lookupFS (stepFS fm fs p0 c0) p = none := by
        rcases hcond with h | h
        · exact Or.inl h
        · exact Or.inr (by rw [hpres]; exact h)
      calc lookupFS (applyList fm ((p0, c0) :: rest) fs) (backupPath p)
          = lookupFS (applyList fm rest (stepFS fm fs p0 c0)) (backupPath p) := rfl
        _ = lookupFS (stepFS fm fs p0 c0) (backupPath p) :=
            ih (goodSrc_tail hg) _ _ _ hrest hcond'
        _ = lookupFS fs (backupPath p) := hpresb

theorem applyList_fresh_frame (fm : FaultModel) :
    ∀ (l : List (RelPath × String)), (pathsOf l).Nodup →
    ∀ (fs : FS), (∀ pc ∈ l, lookupFS fs pc.1 = none) →
    ∀ q, q ∉ pathsOf l → lookupFS (applyList fm l fs) q = lookupFS fs q := by
  intro l
  induction l with
  | nil => intro _ fs _ q _; rfl
  | cons pc rest ih =>
    intro hnd fs hfresh q hq
    obtain ⟨p, c⟩ := pc
    have hp0 : p ∉ pathsOf rest := (List.nodup_cons.mp hnd).1
    have h1 : q ≠ p := fun h => hq (by simp [h])
    have hq' : q ∉ pathsOf rest := fun h => hq (by simp [h])
    have hstep : stepFS fm fs p c = setFS fs p c :=
      stepFS_fresh fm fs p c (hfresh (p, c) (List.mem_cons_self _ _))
    have hfresh' : ∀ pc ∈ rest, lookupFS (stepFS fm fs p c) pc.1 = none := by
      intro a ha
      have hne : a.1 ≠ p := by
        intro h
        exact hp0 (h ▸ List.mem_map_of_mem Prod.fst ha)
      rw [hstep, lookupFS_setFS_ne _ _ _ _ hne]
      exact hfresh a (List.mem_cons_of_mem _ ha)
    calc lookupFS (applyList fm ((p, c) :: rest) fs) q
        = lookupFS (applyList fm rest (stepFS fm fs p c)) q := rfl
      _ = lookupFS (stepFS fm fs p c) q := ih (List.nodup_cons.mp hnd).2 _ hfresh' q hq'
      _ = lookupFS fs q := by rw [hstep, lookupFS_setFS_ne _ _ _ _ h1]

theorem applyList_fresh_content (fm : FaultModel) :
    ∀ (l : List (RelPath × String)), (pathsOf l).Nodup →
    ∀ (fs : FS), (∀ pc ∈ l, lookupFS fs pc.1 = none) →
    ∀ p c, (p, c) ∈ l → lookupFS (applyList fm l fs) p = some c := by
  intro l
  induction l with
  | nil => intro _ fs _ p c h; cases h
  | cons pc rest ih =>
    intro hnd fs hfresh p c hmem
    obtain ⟨p0, c0⟩ := pc
    have hp0 : p0 ∉ pathsOf rest := (List.nodup_cons.mp hnd).1
    have hstep : stepFS fm fs p0 c0 = setFS fs p0 c0 :=
      stepFS_fresh fm fs p0 c0 (hfresh (p0, c0) (List.mem_cons_self _ _))
    have hfresh' : ∀ pc ∈ rest, lookupFS (stepFS fm fs p0 c0) pc.1 = none := by
      intro a ha
      have hne : a.1 ≠ p0 := by
        intro h
        exact hp0 (h ▸ List.mem_map_of_mem Prod.fst ha)
      rw [hstep, lookupFS_setFS_ne _ _ _ _ hne]
      exact hfresh a (List.mem_cons_of_mem _ ha)
    rcases List.mem_cons.mp hmem with heq | hrest
    · injection heq with hp hc
      subst hp; subst hc
      calc lookupFS (applyList fm ((p, c) :: rest) fs) p
          = lookupFS (applyList fm rest (stepFS fm fs p c)) p := rfl
        _ = lookupFS (stepFS fm fs p c) p :=
            applyList_fresh_frame fm rest (List.nodup_cons.mp hnd).2 _ hfresh' p hp0
        _ = some c := stepFS_lookup_self fm fs p c
    · exact ih (List.nodup_cons.mp hnd).2 _ hfresh' p c hrest

/-- Looking a relative path up in a file list (the template side of the
byte-for-byte comparison). -/
def findContent : List (RelPath × String) → RelPath → Option String
  | [], _ => none
  | (p, c) :: rest, q => if p = q then some c else findContent rest q

theorem findContent_none_iff :
    ∀ (l : List (RelPath × String)) (q : RelPath),
    findContent l q = none ↔ q ∉ pathsOf l := by
  intro l
  induction l with
  | nil => intro q; simp [findContent]
  | cons pc rest ih =>
    intro q
    obtain ⟨p, c⟩ := pc
    by_cases h : p = q
    · subst h
      simp [findContent]
    · have h' : ¬ q = p := fun hc => h hc.symm
      simp [findContent, h, ih, h']

theorem findContent_some_mem :
    ∀ (l : List (RelPath × String)) (q : RelPath) (c : String),
    findContent l q = some c → (q, c) ∈ l := by
  intro l
  induction l with
  | nil => intro q c h; simp [findContent] at h
  | cons pc rest ih =>
    intro q c h
    obtain ⟨p, d⟩ := pc
    by_cases hp : p = q
    · subst hp
      simp only [findContent, if_true, eq_self_iff_true] at h
      injection h with h
      subst h
      exact List.mem_cons_self _ _
    · simp only [findContent, if_neg hp] at h
      exact List.mem_cons_of_mem _ (ih q c h)

theorem extraLog_backup_mem (fm : FaultModel) :
    ∀ (l : List (RelPath × String)), goodSrc l → ∀ (fs : FS) (p : RelPath)
    (c : String), (p, c) ∈ l → (lookupFS fs p).isSome = true →
    (fm.backupFails p = false → LogMsg.createdBackup p ∈ extraLog fm l fs) ∧
    (fm.backupFails p = true → LogMsg.backupError p ∈ extraLog fm l fs) := by
  intro l
  induction l with
  | nil => intro _ fs p c h; cases h
  | cons pc rest ih =>
    intro hg fs p c hmem he
    obtain ⟨p0, c0⟩ := pc
    have hnd := hg.1
    have hp0 : p0 ∉ pathsOf rest := (List.nodup_cons.mp hnd).1
    rcases List.mem_cons.mp hmem with heq | hrest
    · injection heq with hp hc
      subst hp; subst hc
      constructor
      · intro hb
        apply List.mem_append_left
        simp [stepLog, he, hb]
      · intro hb
        apply List.mem_append_left
        simp [stepLog, he, hb]
    · have hne : p ≠ p0 := by
        intro h; subst h
        exact hp0 (List.mem_map_of_mem Prod.fst hrest)
      have hneb : p ≠ backupPath p0 :=
        hg.2 (p, c) (List.mem_cons_of_mem _ hrest) (p0, c0) (List.mem_cons_self _ _)
      have hpres : lookupFS (stepFS fm fs p0 c0) p = lookupFS fs p :=
        stepFS_lookup_other fm fs p0 c0 p hne hneb
      have he' : (lookupFS (stepFS fm fs p0 c0) p).isSome = true := by
        rw [hpres]; exact he
      have := ih (goodSrc_tail hg) (stepFS fm fs p0 c0) p c hrest he'
      exact ⟨fun hb => List.mem_append_right _ (this.1 hb),
             fun hb => List.mem_append_right _ (this.2 hb)⟩

theorem processFile_fsOf_frame (fm : FaultModel) (p : RelPath) (c : String)
    (fs : FS) (lg : List LogMsg) (q : RelPath) (h1 : q ≠ p)
    (h2 : q ≠ backupPath p) :
    lookupFS (fsOf (processFile fm p c fs lg)) q = lookupFS fs q := by
  by_cases he : (lookupFS fs p).isSome <;> by_cases hb : fm.backupFails p <;>
    by_cases hrm : fm.removeFails p <;> by_cases hcp : fm.copyFails p <;>
      simp [processFile, fsOf, he, hb, hrm, hcp, lookupFS_setFS_ne _ _ _ _ h1,
        lookupFS_eraseFS_ne _ _ _ h1, lookupFS_setFS_ne _ _ _ _ h2]

theorem copyFiles_fsOf_frame (fm : FaultModel) :
    ∀ (l : List (RelPath × String)) (fs : FS) (lg : List LogMsg) (q : RelPath),
    q ∉ pathsOf l → (∀ pc ∈ l, q ≠ backupPath pc.1) →
    lookupFS (fsOf (copyFiles fm l fs lg)) q = lookupFS fs q := by
  intro l
  induction l with
  | nil => intro fs lg q _ _; rfl
  | cons pc rest ih =>
    intro fs lg q hq hqb
    obtain ⟨p, c⟩ := pc
    have h1 : q ≠ p := fun h => hq (by simp [h])
    have h2 : q ≠ backupPath p := hqb (p, c) (List.mem_cons_self _ _)
    have hq' : q ∉ pathsOf rest := fun h => hq (by simp [h])
    have hqb' : ∀ pc ∈ rest, q ≠ backupPath pc.1 :=
      fun a ha => hqb a (List.mem_cons_of_mem _ ha)
    have hpf := processFile_fsOf_frame fm p c fs lg q h1 h2
    cases hres : processFile fm p c fs lg with
    | error r =>
      rw [hres] at hpf
      simp only [copyFiles, hres]
      exact hpf
    | ok r =>
      rw [hres] at hpf
      simp only [copyFiles, hres]
      calc lookupFS (fsOf (copyFiles fm rest r.1 r.2)) q
          = lookupFS r.1 q := ih r.1 r.2 q hq' hqb'
        _ = lookupFS fs q := hpf

theorem copyFiles_append (fm : FaultModel) :
    ∀ (l1 l2 : List (RelPath × String)) (fs : FS) (lg : List LogMsg),
    copyFiles fm (l1 ++ l2) fs lg =
      (match copyFiles fm l1 fs lg with
       | .ok (fs', lg') => copyFiles fm l2 fs' lg'
       | .error r => .error r) := by
  intro l1
  induction l1 with
  | nil => intro l2 fs lg; simp [copyFiles]
  | cons pc rest ih =>
    intro l2 fs lg
    obtain ⟨p, c⟩ := pc
    simp only [List.cons_append, copyFiles]
    cases h : processFile fm p c fs lg with
    | error r => rfl
    | ok r => exact ih l2 r.1 r.2

/-- How a run of the flat copy corresponds to a run of the tree walk:
identical on success; on an exit, the same file system and the same log
except for the `Error copying files` lines the try/catch levels append
while the exception propagates. -/
def matchesFlat (flat tree : Except (FS × List LogMsg) (FS × List LogMsg)) : Prop :=
  match flat, tree with
  | .ok a, .ok b => b = a
  | .error (fs1, lg1), .error (fs2, lg2) => fs2 = fs1 ∧ ∃ e, lg2 = lg1 ++ e
  | .ok _, .error _ => False
  | .error _, .ok _ => False

theorem copyWalk_matches (fm : FaultModel) :
    ∀ (t : EntryList) (rel : RelPath) (fs : FS) (lg : List LogMsg),
    matchesFlat (copyFiles fm (filesOfL t rel) fs lg) (copyWalk fm t rel fs lg)
  | .nil, rel, fs, lg => by
    simp [filesOfL, copyFiles, copyWalk, matchesFlat]
  | .cons (.file n c) rest, rel, fs, lg => by
    simp only [filesOfL, filesOf, List.singleton_append, copyFiles, copyWalk]
    cases h : processFile fm (rel ++ [n]) c fs lg with
    | error r =>
      obtain ⟨fs1, lg1⟩ := r
      simp [matchesFlat]
    | ok r =>
      exact copyWalk_matches fm rest rel r.1 r.2
  | .cons (.dir n sub) rest, rel, fs, lg => by
    simp only [filesOfL, filesOf, copyWalk, copyFiles_append fm]
    have hsub := copyWalk_matches fm sub (rel ++ [n]) fs lg
    cases hf : copyFiles fm (filesOfL sub (rel ++ [n])) fs lg with
    | error r =>
      obtain ⟨fs1, lg1⟩ := r
      rw [hf] at hsub
      cases hw : copyWalk fm sub (rel ++ [n]) fs lg with
      | error w =>
        obtain ⟨fs2, lg2⟩ := w
        rw [hw] at hsub
        obtain ⟨hfs, e, hlg⟩ := hsub
        subst hfs
        subst hlg
        simp [matchesFlat, List.append_assoc]
      | ok w =>
        rw [hw] at hsub
        exact absurd hsub (by simp [matchesFlat])
    | ok r =>
      obtain ⟨fs1, lg1⟩ := r
      rw [hf] at hsub
      cases hw : copyWalk fm sub (rel ++ [n]) fs lg with
      | error w =>
        rw [hw] at hsub
        obtain ⟨fs2, lg2⟩ := w
        exact absurd hsub (by simp [matchesFlat])
      | ok w =>
        rw [hw] at hsub
        simp only [matchesFlat] at hsub
        subst hsub
        exact copyWalk_matches fm rest rel fs1 lg1

theorem copyFilesIndividually_matches (fm : FaultModel) (t : EntryList)
    (rel : RelPath) (fs : FS) (lg : List LogMsg) :
    matchesFlat (copyFiles fm (filesOfL t rel) fs lg)
      (copyFilesIndividually fm t rel fs lg) := by
  have h := copyWalk_matches fm t rel fs lg
  unfold copyFilesIndividually
  cases hf : copyFiles fm (filesOfL t rel) fs lg with
  | error r =>
    obtain ⟨fs1, lg1⟩ := r
    rw [hf] at h
    cases hw : copyWalk fm t rel fs lg with
    | error w =>
      obtain ⟨fs2, lg2⟩ := w
      rw [hw] at h
      obtain ⟨hfs, e, hlg⟩ := h
      subst hfs
      subst hlg
      simp [matchesFlat, List.append_assoc]
    | ok w =>
      rw [hw] at h
      exact absurd h (by simp [matchesFlat])
  | ok r =>
    rw [hf] at h
    cases hw : copyWalk fm t rel fs lg with
    | error w =>
      obtain ⟨fs2, lg2⟩ := w
      rw [hw] at h
      exact absurd h (by simp [matchesFlat])
    | ok w =>
      rw [hw] at h
      simp only [matchesFlat] at h
      subst h
      simp [matchesFlat]

theorem copyFilesIndividually_of_flat_ok (fm : FaultModel) (t : EntryList)
    (rel : RelPath) (fs : FS) (lg : List LogMsg) (fs' : FS) (lg' : List LogMsg)
    (h : copyFiles fm (filesOfL t rel) fs lg = .ok (fs', lg')) :
    copyFilesIndividually fm t rel fs lg = .ok (fs', lg') := by
  have hm := copyFilesIndividually_matches fm t rel fs lg
  rw [h] at hm
  cases hw : copyFilesIndividually fm t rel fs lg with
  | error w =>
    obtain ⟨fs2, lg2⟩ := w
    rw [hw] at hm
    exact absurd hm (by simp [matchesFlat])
  | ok w =>
    rw [hw] at hm
    simp only [matchesFlat] at hm
    rw [hm]

theorem copyFilesIndividually_ok_iff (fm : FaultModel) (t : EntryList)
    (rel : RelPath) (fs : FS) (lg : List LogMsg) (fs' : FS) (lg' : List LogMsg) :
    copyFilesIndividually fm t rel fs lg = .ok (fs', lg') ↔
    copyFiles fm (filesOfL t rel) fs lg = .ok (fs', lg') := by
  constructor
  · intro h
    have hm := copyFilesIndividually_matches fm t rel fs lg
    rw [h] at hm
    cases hf : copyFiles fm (filesOfL t rel) fs lg with
    | error r =>
      obtain ⟨fs1, lg1⟩ := r
      rw [hf] at hm
      exact absurd hm (by simp [matchesFlat])
    | ok r =>
      rw [hf] at hm
      simp only [matchesFlat] at hm
      rw [hm]
  · exact copyFilesIndividually_of_flat_ok fm t rel fs lg fs' lg'

theorem copyFilesIndividually_fsOf (fm : FaultModel) (t : EntryList)
    (rel : RelPath) (fs : FS) (lg : List LogMsg) :
    fsOf (copyFilesIndividually fm t rel fs lg) =
    fsOf (copyFiles fm (filesOfL t rel) fs lg) := by
  have hm := copyFilesIndividually_matches fm t rel fs lg
  cases hf : copyFiles fm (filesOfL t rel) fs lg with
  | error r =>
    obtain ⟨fs1, lg1⟩ := r
    rw [hf] at hm
    cases hw : copyFilesIndividually fm t rel fs lg with
    | error w =>
      obtain ⟨fs2, lg2⟩ := w
      rw [hw] at hm
      simp [fsOf, hm.1]
    | ok w =>
      rw [hw] at hm
      exact absurd hm (by simp [matchesFlat])
  | ok r =>
    rw [hf] at hm
    cases hw : copyFilesIndividually fm t rel fs lg with
    | error w =>
      obtain ⟨fs2, lg2⟩ := w
      rw [hw] at hm
      exact absurd hm (by simp [matchesFlat])
    | ok w =>
      rw [hw] at hm
      simp only [matchesFlat] at hm
      simp [fsOf, hm]

theorem copyFilesIndividually_exited (fm : FaultModel) (t : EntryList)
    (rel : RelPath) (fs : FS) (lg : List LogMsg) :
    exited (copyFilesIndividually fm t rel fs lg) =
    exited (copyFiles fm (filesOfL t rel) fs lg) := by
  have hm := copyFilesIndividually_matches fm t rel fs lg
  cases hf : copyFiles fm (filesOfL t rel) fs lg with
  | error r =>
    obtain ⟨fs1, lg1⟩ := r
    rw [hf] at hm
    cases hw : copyFilesIndividually fm t rel fs lg with
    | error w => simp [exited]
    | ok w =>
      rw [hw] at hm
      exact absurd hm (by simp [matchesFlat])
  | ok r =>
    rw [hf] at hm
    cases hw : copyFilesIndividually fm t rel fs lg with
    | error w =>
      obtain ⟨fs2, lg2⟩ := w
      rw [hw] at hm
      exact absurd hm (by simp [matchesFlat])
    | ok w => simp [exited]

/-!
## Lemmas about the remote fetch
-/

theorem downloadFromGitHub_notFound_exits (fm : FaultModel) (rp : String)
    (lp : RelPath) (fs : FS) (lg : List LogMsg)
    (h : strStartsWith rp "templates/" = true) :
    downloadFromGitHub fm rp lp RListing.notFound fs lg =
      .error (fs, lg ++ [.fetchError rp, .templateNotFound]) := by
  simp [downloadFromGitHub, h]

mutual
theorem downloadFromGitHub_no404 (fm : FaultModel) :
    ∀ (t : RListing), noNotFoundL t = true → ∀ (rp : String) (lp : RelPath)
    (fs : FS) (lg : List LogMsg),
    exited (downloadFromGitHub fm rp lp t fs lg) = false
  | .notFound, h => by simp [noNotFoundL] at h
  | .failedOther, _ => by
    intro rp lp fs lg
    simp [downloadFromGitHub, exited]
  | .notArray, _ => by
    intro rp lp fs lg
    simp [downloadFromGitHub, exited]
  | .ok items, h => by
    intro rp lp fs lg
    exact downloadItems_no404 fm items (by simpa [noNotFoundL] using h) rp lp fs lg

theorem downloadItems_no404 (fm : FaultModel) :
    ∀ (items : RItems), noNotFoundI items = true → ∀ (rp : String)
    (lp : RelPath) (fs : FS) (lg : List LogMsg),
    exited (downloadItems fm rp lp items fs lg) = false
  | .nil, _ => by
    intro rp lp fs lg
    simp [downloadItems, exited]
  | .cons i rest, h => by
    intro rp lp fs lg
    have hsplit := h
    simp only [noNotFoundI, Bool.and_eq_true] at hsplit
    have hi := downloadItem_no404 fm i hsplit.1 rp lp fs lg
    cases hres : downloadItem fm rp lp i fs lg with
    | error r =>
      rw [hres] at hi
      simp [exited] at hi
    | ok r =>
      simp only [downloadItems, hres]
      exact downloadItems_no404 fm rest hsplit.2 rp lp r.1 r.2

theorem downloadItem_no404 (fm : FaultModel) :
    ∀ (i : RItem), noNotFoundItem i = true → ∀ (rp : String) (lp : RelPath)
    (fs : FS) (lg : List LogMsg),
    exited (downloadItem fm rp lp i fs lg) = false
  | .dir n sub, h => by
    intro rp lp fs lg
    exact downloadFromGitHub_no404 fm sub (by simpa [noNotFoundItem] using h) _ _ fs lg
  | .file n c, _ => by
    intro rp lp fs lg
    by_cases hd : fm.dlFails (lp ++ [n]) <;>
      by_cases he : (lookupFS fs (lp ++ [n])).isSome <;>
        simp [downloadItem, exited, hd, he]
end

/-!
## A fully available remote template downloads as a plain write sequence

`rFilesL` is the file list a remote template tree carries (depth-first,
with relative paths); `allOkL` says every listing request in the tree is
answered with an array (the template is fully present remotely).  Into a
fresh temp directory, with no download faults, `downloadFromGitHub`
performs exactly the writes of that file list.
-/

mutual
/-- The files of a remote listing, with their relative paths, depth-first. -/
def rFilesL : RListing → RelPath → List (RelPath × String)
  | .ok items, lp => rFilesI items lp
  | .notFound, _ => []
  | .failedOther, _ => []
  | .notArray, _ => []
def rFilesI : RItems → RelPath → List (RelPath × String)
  | .nil, _ => []
  | .cons i rest, lp => rFilesItem i lp ++ rFilesI rest lp
def rFilesItem : RItem → RelPath → List (RelPath × String)
  | .dir n sub, lp => rFilesL sub (lp ++ [n])
  | .file n c, lp => [(lp ++ [n], c)]
end

mutual
/-- Every listing request in the tree (the top one included) answers ok. -/
def allOkL : RListing → Bool
  | .ok items => allOkI items
  | .notFound => false
  | .failedOther => false
  | .notArray => false
def allOkI : RItems → Bool
  | .nil => true
  | .cons i rest => allOkItem i && allOkI rest
def allOkItem : RItem → Bool
  | .dir _ sub => allOkL sub
  | .file _ _ => true
end

/-- Write a sequence of files, in order. -/
def writeAll : List (RelPath × String) → FS → FS
  | [], fs => fs
  | (p, c) :: rest, fs => writeAll rest (setFS fs p c)

@[simp] theorem pathsOf_append (l1 l2 : List (RelPath × String)) :
    pathsOf (l1 ++ l2) = pathsOf l1 ++ pathsOf l2 := by
  simp [pathsOf]

theorem setFS_fresh_append (fs : FS) (p : RelPath) (c : String)
    (h : lookupFS fs p = none) : setFS fs p c = fs ++ [(p, c)] := by
  induction fs with
  | nil => rfl
  | cons hd rest ih =>
    obtain ⟨q, d⟩ := hd
    simp only [lookupFS] at h
    by_cases hq : q = p
    · rw [if_pos hq] at h
      cases h
    · rw [if_neg hq] at h
      simp [setFS, hq, ih h]

theorem writeAll_append (l1 l2 : List (RelPath × String)) (fs : FS) :
    writeAll (l1 ++ l2) fs = writeAll l2 (writeAll l1 fs) := by
  induction l1 generalizing fs with
  | nil => rfl
  | cons pc rest ih =>
    obtain ⟨p, c⟩ := pc
    simp [writeAll, ih]

theorem writeAll_frame (l : List (RelPath × String)) (fs : FS) (q : RelPath)
    (h : q ∉ pathsOf l) : lookupFS (writeAll l fs) q = lookupFS fs q := by
  induction l generalizing fs with
  | nil => rfl
  | cons pc rest ih =>
    obtain ⟨p, c⟩ := pc
    have h1 : q ≠ p := fun hc => h (by simp [hc])
    have h2 : q ∉ pathsOf rest := fun hc => h (by simp [hc])
    calc lookupFS (writeAll ((p, c) :: rest) fs) q
        = lookupFS (writeAll rest (setFS fs p c)) q := rfl
      _ = lookupFS (setFS fs p c) q := ih _ h2
      _ = lookupFS fs q := lookupFS_setFS_ne fs p q c h1

theorem writeAll_fresh (l : List (RelPath × String)) (fs : FS)
    (hnd : (pathsOf l).Nodup) (hfresh : ∀ pc ∈ l, lookupFS fs pc.1 = none) :
    writeAll l fs = fs ++ l := by
  induction l generalizing fs with
  | nil => simp [writeAll]
  | cons pc rest ih =>
    obtain ⟨p, c⟩ := pc
    have hp : p ∉ pathsOf rest := (List.nodup_cons.mp hnd).1
    have hset : setFS fs p c = fs ++ [(p, c)] :=
      setFS_fresh_append fs p c (hfresh (p, c) (List.mem_cons_self _ _))
    have hfresh' : ∀ pc ∈ rest, lookupFS (setFS fs p c) pc.1 = none := by
      intro a ha
      have hne : a.1 ≠ p := fun hc => hp (hc ▸ List.mem_map_of_mem Prod.fst ha)
      rw [lookupFS_setFS_ne fs p a.1 c hne]
      exact hfresh a (List.mem_cons_of_mem _ ha)
    calc writeAll ((p, c) :: rest) fs
        = writeAll rest (setFS fs p c) := rfl
      _ = setFS fs p c ++ rest := ih _ (List.nodup_cons.mp hnd).2 hfresh'
      _ = (fs ++ [(p, c)]) ++ rest := by rw [hset]
      _ = fs ++ ((p, c) :: rest) := by simp

mutual
theorem downloadFromGitHub_fresh (fm : FaultModel)
    (hdf : ∀ p, fm.dlFails p = false) :
    ∀ (t : RListing), allOkL t = true → ∀ (lp : RelPath),
    (pathsOf (rFilesL t lp)).Nodup → ∀ (rp : String) (fs : FS)
    (lg : List LogMsg), (∀ pc ∈ rFilesL t lp, lookupFS fs pc.1 = none) →
    downloadFromGitHub fm rp lp t fs lg = .ok (writeAll (rFilesL t lp) fs, lg)
  | .ok items, h, lp, hnd, rp, fs, lg, hfresh => by
    simp only [downloadFromGitHub, rFilesL]
    exact downloadItems_fresh fm hdf items (by simpa [allOkL] using h) lp
      (by simpa [rFilesL] using hnd) rp fs lg
      (by simpa [rFilesL] using hfresh)
  | .notFound, h, _, _, _, _, _, _ => by simp [allOkL] at h
  | .failedOther, h, _, _, _, _, _, _ => by simp [allOkL] at h
  | .notArray, h, _, _, _, _, _, _ => by simp [allOkL] at h

theorem downloadItems_fresh (fm : FaultModel)
    (hdf : ∀ p, fm.dlFails p = false) :
    ∀ (items : RItems), allOkI items = true → ∀ (lp : RelPath),
    (pathsOf (rFilesI items lp)).Nodup → ∀ (rp : String) (fs : FS)
    (lg : List LogMsg), (∀ pc ∈ rFilesI items lp, lookupFS fs pc.1 = none) →
    downloadItems fm rp lp items fs lg = .ok (writeAll (rFilesI items lp) fs, lg)
  | .nil, _, lp, _, rp, fs, lg, _ => by simp [downloadItems, rFilesI, writeAll]
  | .cons i rest, h, lp, hnd, rp, fs, lg, hfresh => by
    have hsplit : allOkItem i = true ∧ allOkI rest = true := by
      simpa [allOkI, Bool.and_eq_true] using h
    have hndsplit := hnd
    rw [show rFilesI (.cons i rest) lp = rFilesItem i lp ++ rFilesI rest lp from rfl,
      pathsOf_append, List.nodup_append] at hndsplit
    obtain ⟨hnd1, hnd2, hdisj⟩ := hndsplit
    have hfresh1 : ∀ pc ∈ rFilesItem i lp, lookupFS fs pc.1 = none := by
      intro a ha
      exact hfresh a (by simp [rFilesI, List.mem_append]; exact Or.inl ha)
    have hitem := downloadItem_fresh fm hdf i hsplit.1 lp hnd1 rp fs lg hfresh1
    simp only [downloadItems, hitem]
    have hfresh2 : ∀ pc ∈ rFilesI rest lp,
        lookupFS (writeAll (rFilesItem i lp) fs) pc.1 = none := by
      intro a ha
      have hnotin : a.1 ∉ pathsOf (rFilesItem i lp) := by
        intro hin
        exact hdisj hin (List.mem_map_of_mem Prod.fst ha)
      rw [writeAll_frame _ fs a.1 hnotin]
      exact hfresh a (by simp [rFilesI, List.mem_append]; exact Or.inr ha)
    rw [downloadItems_fresh fm hdf rest hsplit.2 lp hnd2 rp _ lg hfresh2]
    rw [show rFilesI (.cons i rest) lp = rFilesItem i lp ++ rFilesI rest lp from rfl,
      writeAll_append]

theorem downloadItem_fresh (fm : FaultModel)
    (hdf : ∀ p, fm.dlFails p = false) :
    ∀ (i : RItem), allOkItem i = true → ∀ (lp : RelPath),
    (pathsOf (rFilesItem i lp)).Nodup → ∀ (rp : String) (fs : FS)
    (lg : List LogMsg), (∀ pc ∈ rFilesItem i lp, lookupFS fs pc.1 = none) →
    downloadItem fm rp lp i fs lg = .ok (writeAll (rFilesItem i lp) fs, lg)
  | .dir n sub, h, lp, hnd, rp, fs, lg, hfresh => by
    simp only [downloadItem, rFilesItem]
    exact downloadFromGitHub_fresh fm hdf sub (by simpa [allOkItem] using h)
      (lp ++ [n]) (by simpa [rFilesItem] using hnd) _ fs lg
      (by simpa [rFilesItem] using hfresh)
  | .file n c, _, lp, hnd, rp, fs, lg, hfresh => by
    have hfr : lookupFS fs (lp ++ [n]) = none :=
      hfresh (lp ++ [n], c) (by simp [rFilesItem])
    simp [downloadItem, rFilesItem, writeAll, hfr, hdf (lp ++ [n])]
end

/-- Copying a well-formed file list into an empty destination reproduces
exactly that list's file map. -/
theorem applyList_empty_lookup (fm : FaultModel) (l : List (RelPath × String))
    (hnd : (pathsOf l).Nodup) :
    ∀ q, lookupFS (applyList fm l []) q = findContent l q := by
  intro q
  cases hfc : findContent l q with
  | some c =>
    exact applyList_fresh_content fm _ hnd [] (fun pc _ => rfl) q c
      (findContent_some_mem _ q c hfc)
  | none =>
    have hq := (findContent_none_iff _ q).mp hfc
    rw [applyList_fresh_frame fm _ hnd [] (fun pc _ => rfl) q hq]
    rfl

/-!
## Claim theorems
-/

/-- C1, counterexample.  The claim says a listing failure for a nested
subdirectory during the recursion is only a warning with no effect on the
final exit code.  But the fatality test is
`repoPath.startsWith('templates/')`, and every nested repo path also
starts with `templates/`: here the top-level listing of `templates/t`
succeeds, the nested listing of its subdirectory `sub` answers 404, and
the download exits (non-zero) instead of warning and continuing. -/
theorem C1_counterexample :
    exited (downloadFromGitHub noFaults ("templates/" ++ "t") []
      (RListing.ok (.cons (.dir "sub" .notFound) .nil)) [] []) = true := by
  decide

/-- C1, amended.  A 404 on the top-level template path exits non-zero;
a 404 on a nested listing is equally fatal (every recursive repo path
also starts with `templates/`); only a nested listing failure whose
status is not 404 (or a non-array body) is a warning: the failing
subtree is skipped and the recursion continues, leaving the exit
unaffected.  Conjuncts: (1) top-level 404 exits; (2) if no listing in
the tree answers 404 the download never exits; (3) concretely, after a
non-404 nested listing failure the remaining items are still downloaded
and the failure is only logged. -/
theorem C1_claim :
    (∀ (fm : FaultModel) (name : String) (fs : FS) (lg : List LogMsg),
      exited (downloadFromGitHub fm ("templates/" ++ name) []
        RListing.notFound fs lg) = true)
    ∧ (∀ (fm : FaultModel) (t : RListing) (rp : String) (lp : RelPath)
        (fs : FS) (lg : List LogMsg), noNotFoundL t = true →
      exited (downloadFromGitHub fm rp lp t fs lg) = false)
    ∧ (∀ (c : String),
      exited (downloadFromGitHub noFaults ("templates/" ++ "t") []
        (RListing.ok (.cons (.dir "d" .failedOther)
          (.cons (.file "f" c) .nil))) [] []) = false
      ∧ lookupFS (fsOf (downloadFromGitHub noFaults ("templates/" ++ "t") []
          (RListing.ok (.cons (.dir "d" .failedOther)
            (.cons (.file "f" c) .nil))) [] [])) ["f"] = some c
      ∧ LogMsg.fetchError ("templates/" ++ "t" ++ "/" ++ "d") ∈
          logOf (downloadFromGitHub noFaults ("templates/" ++ "t") []
            (RListing.ok (.cons (.dir "d" .failedOther)
              (.cons (.file "f" c) .nil))) [] [])) := by
  refine ⟨?_, ?_, ?_⟩
  · intro fm name fs lg
    rw [downloadFromGitHub_notFound_exits fm _ [] fs lg (strStartsWith_append _ name)]
    rfl
  · intro fm t rp lp fs lg h
    exact downloadFromGitHub_no404 fm t h rp lp fs lg
  · intro c
    refine ⟨rfl, rfl, ?_⟩
    simp [downloadFromGitHub, downloadItems, downloadItem, noFaults, logOf,
      lookupFS, setFS]

/-- C1, witness: the amended theorem applied at a concrete remote tree
(top-level 404 exits; a 404-free tree downloads without exiting). -/
theorem C1_witness :
    exited (downloadFromGitHub noFaults ("templates/" ++ "x") []
      RListing.notFound [] []) = true
    ∧ exited (downloadFromGitHub noFaults "tpl" []
      (RListing.ok (.cons (.file "a" "b") .nil)) [] []) = false :=
  ⟨C1_claim.1 noFaults "x" [] [],
   C1_claim.2.1 noFaults (RListing.ok (.cons (.file "a" "b") .nil)) "tpl" [] [] []
     (by decide)⟩

/-- C10, counterexample.  The claim says every pre-existing destination
entry whose relative path does not occur in the template is left
unchanged and the copier only writes paths present in the template.  But
the copier also writes `.backup` siblings: with template `p` and a
destination holding `p` and an unrelated `p.backup`, the backup write
clobbers the pre-existing `p.backup` (a path that is not in the
template). -/
theorem C10_counterexample :
    ["p.backup"] ∉ pathsOf (filesOfL (.cons (.file "p" "new") .nil) [])
    ∧ lookupFS (fsOf (copyFilesIndividually noFaults
        (.cons (.file "p" "new") .nil) []
        [(["p"], "old"), (["p.backup"], "precious")] [])) ["p.backup"]
      ≠ lookupFS [(["p"], "old"), (["p.backup"], "precious")] ["p.backup"] := by
  decide

/-- C10, amended.  Every pre-existing destination entry whose relative
path neither occurs in the template tree nor is the `.backup` sibling of
a template file path is left byte-for-byte unchanged — under any fault
behaviour, and whether the copy finishes or exits: the copier only
creates or overwrites template paths and their `.backup` siblings. -/
theorem C10_claim (fm : FaultModel) (t : EntryList) (fs : FS) (lg : List LogMsg)
    (q : RelPath) (h1 : q ∉ pathsOf (filesOfL t []))
    (h2 : ∀ pc ∈ filesOfL t [], q ≠ backupPath pc.1) :
    lookupFS (fsOf (copyFilesIndividually fm t [] fs lg)) q = lookupFS fs q := by
  rw [copyFilesIndividually_fsOf]
  exact copyFiles_fsOf_frame fm _ fs lg q h1 h2

/-- C10, witness: the amended frame property at a concrete template and
destination (the unrelated file `other` keeps its content). -/
theorem C10_witness :
    lookupFS (fsOf (copyFilesIndividually noFaults
      (.cons (.file "p" "new") .nil) [] [(["other"], "keep"), (["p"], "old")] []))
      ["other"] = lookupFS [(["other"], "keep"), (["p"], "old")] ["other"] :=
  C10_claim noFaults (.cons (.file "p" "new") .nil)
    [(["other"], "keep"), (["p"], "old")] [] ["other"] (by decide) (by decide)

theorem noFaults_writeSafe : writeSafe noFaults :=
  ⟨fun _ => rfl, fun _ => rfl⟩

/-- C4, confirmed.  Scaffolding the same template twice into the same
destination (no prompts modelled here: the copy step itself), for a
template whose file names do not collide with backup names: for every
template path `p` that was originally overwritten, the final state holds
the template content at `p`, exactly one backup — at `p.backup`, holding
the content the first run wrote (the template content), the second run's
backup having overwritten the first run's — and no chained
`p.backup.backup`. -/
theorem C4_claim (t : EntryList) (fs0 fs1 fs2 : FS) (lg1 lg2 : List LogMsg)
    (hg : goodSrc (filesOfL t []))
    (hbb : ∀ pc ∈ filesOfL t [], ∀ pc' ∈ filesOfL t [],
      pc.1 ≠ backupPath (backupPath pc'.1))
    (h1 : copyFilesIndividually noFaults t [] fs0 [] = .ok (fs1, lg1))
    (h2 : copyFilesIndividually noFaults t [] fs1 [] = .ok (fs2, lg2)) :
    ∀ (p : RelPath) (c : String), (p, c) ∈ filesOfL t [] →
    (lookupFS fs0 p).isSome = true →
    lookupFS fs2 p = some c ∧
    lookupFS fs2 (backupPath p) = some c ∧
    lookupFS fs2 (backupPath (backupPath p)) =
      lookupFS fs0 (backupPath (backupPath p)) := by
  intro p c hmem hsome0
  have hf1 := (copyFilesIndividually_ok_iff noFaults t [] fs0 [] fs1 lg1).mp h1
  have hf2 := (copyFilesIndividually_ok_iff noFaults t [] fs1 [] fs2 lg2).mp h2
  rw [copyFiles_writeSafe noFaults noFaults_writeSafe] at hf1 hf2
  simp only [Except.ok.injEq, Prod.mk.injEq] at hf1 hf2
  obtain ⟨hfs1, -⟩ := hf1
  obtain ⟨hfs2, -⟩ := hf2
  subst hfs1
  subst hfs2
  have hbf : noFaults.backupFails p = false := rfl
  have hc1 : lookupFS (applyList noFaults (filesOfL t []) fs0) p = some c :=
    applyList_content noFaults (filesOfL t []) hg fs0 p c hmem
  have hsome1 : (lookupFS (applyList noFaults (filesOfL t []) fs0) p).isSome = true := by
    rw [hc1]; rfl
  refine ⟨applyList_content noFaults (filesOfL t []) hg _ p c hmem, ?_, ?_⟩
  · rw [applyList_backup noFaults (filesOfL t []) hg _ p c hmem hsome1 hbf]
    exact hc1
  · have hq1 : backupPath (backupPath p) ∉ pathsOf (filesOfL t []) := by
      intro hin
      obtain ⟨a, ha, hfst⟩ := List.mem_map.mp hin
      exact hbb a ha (p, c) hmem hfst
    have hq2 : ∀ pc' ∈ filesOfL t [],
        backupPath (backupPath p) ≠ backupPath pc'.1 := by
      intro a ha hcontra
      exact hg.2 a ha (p, c) hmem (backupPath_inj hcontra).symm
    rw [applyList_frame noFaults (filesOfL t []) _ _ hq1 hq2,
      applyList_frame noFaults (filesOfL t []) _ _ hq1 hq2]

/-- C4, witness: template `a`, destination originally holding `a`; two
runs leave `a.backup` holding the first run's content and no chained
backup. -/
theorem C4_witness :
    lookupFS [(["a.backup"], "new"), (["a"], "new")] ["a"] = some "new"
    ∧ lookupFS [(["a.backup"], "new"), (["a"], "new")] (backupPath ["a"]) = some "new"
    ∧ lookupFS [(["a.backup"], "new"), (["a"], "new")] (backupPath (backupPath ["a"])) =
        lookupFS [(["a"], "old")] (backupPath (backupPath ["a"])) :=
  C4_claim (.cons (.file "a" "new") .nil) [(["a"], "old")]
    [(["a.backup"], "old"), (["a"], "new")] [(["a.backup"], "new"), (["a"], "new")]
    [.createdBackup ["a"]] [.createdBackup ["a"]]
    (by decide) (by decide) (by decide) (by decide) ["a"] "new" (by decide) (by decide)

/-- C6, confirmed.  During the copy step, for every file entry whose
destination path already holds a file, the copier backs the existing
file up to `<path>.backup` and then replaces the original with the
template content; a failing backup is only reported (a warning line) and
does not abort the copy.  Stated for any fault model whose remove/copy
pair succeeds (so that the only failures are backup failures): the walk
never exits, the destination ends with the template content, and the
backup either holds the old content (with the `Created backup` line) or
— when the backup call throws — is untouched (with the error line). -/
theorem C6_claim (fm : FaultModel) (t : EntryList) (fs0 : FS)
    (hw : writeSafe fm) (hg : goodSrc (filesOfL t [])) :
    exited (copyFilesIndividually fm t [] fs0 []) = false
    ∧ ∀ (fs' : FS) (lg' : List LogMsg),
      copyFilesIndividually fm t [] fs0 [] = .ok (fs', lg') →
      ∀ (p : RelPath) (c : String), (p, c) ∈ filesOfL t [] →
      (lookupFS fs0 p).isSome = true →
      lookupFS fs' p = some c
      ∧ (fm.backupFails p = false →
          lookupFS fs' (backupPath p) = lookupFS fs0 p
          ∧ LogMsg.createdBackup p ∈ lg')
      ∧ (fm.backupFails p = true →
          LogMsg.backupError p ∈ lg'
          ∧ lookupFS fs' (backupPath p) = lookupFS fs0 (backupPath p)) := by
  constructor
  · rw [copyFilesIndividually_exited, copyFiles_writeSafe fm hw]
    rfl
  · intro fs' lg' hrun p c hmem hsome
    have hf := (copyFilesIndividually_ok_iff fm t [] fs0 [] fs' lg').mp hrun
    rw [copyFiles_writeSafe fm hw] at hf
    simp only [Except.ok.injEq, Prod.mk.injEq, List.nil_append] at hf
    obtain ⟨hfs, hlg⟩ := hf
    subst hfs
    subst hlg
    refine ⟨applyList_content fm (filesOfL t []) hg _ p c hmem, ?_, ?_⟩
    · intro hb
      exact ⟨applyList_backup fm (filesOfL t []) hg _ p c hmem hsome hb,
        (extraLog_backup_mem fm (filesOfL t []) hg fs0 p c hmem hsome).1 hb⟩
    · intro hb
      exact ⟨(extraLog_backup_mem fm (filesOfL t []) hg fs0 p c hmem hsome).2 hb,
        applyList_backup_skip fm (filesOfL t []) hg _ p c hmem (Or.inl hb)⟩

/-- C6, witness: a template file over an existing destination file; the
backup is created with the old content and the file is replaced. -/
theorem C6_witness :
    exited (copyFilesIndividually noFaults (.cons (.file "a" "new") .nil) []
      [(["a"], "old")] []) = false
    ∧ lookupFS [(["a.backup"], "old"), (["a"], "new")] ["a"] = some "new" := by
  have h := C6_claim noFaults (.cons (.file "a" "new") .nil) [(["a"], "old")]
    noFaults_writeSafe (by decide)
  refine ⟨h.1, ?_⟩
  have h2 := h.2 [(["a.backup"], "old"), (["a"], "new")] [.createdBackup ["a"]]
    (by decide) ["a"] "new" (by decide) (by decide)
  exact h2.1

/-- C5, confirmed.  For every template name present in the template
root — the local templates directory or the remote repository —
scaffolding it against an absent or empty destination exits 0 and
leaves a destination whose file map coincides with the template's file
map at every relative path: byte-for-byte identical, with no extra
entries.  Locally the template is the resolved subdirectory tree;
remotely it is the tree the fully answering listing recursion serves,
downloaded into a fresh temp directory and copied from there. -/
theorem C5_claim (env : Env) (fm : FaultModel) (dest0 : Option FS)
    (hw : writeSafe fm)
    (h1 : (parseCliArguments env.args env.cwd).templateName ≠ "list")
    (h2 : (parseCliArguments env.args env.cwd).templateName ≠ "")
    (hdest : dest0 = none ∨ dest0 = some []) :
    (∀ t : EntryList, env.isRemote = false →
      findTemplateL env.localRoot
        (parseCliArguments env.args env.cwd).templateName = some t →
      (pathsOf (filesOfL t [])).Nodup →
      (mainModel env fm dest0).code = 0
      ∧ ∃ fs', (mainModel env fm dest0).dest = some fs'
        ∧ ∀ q, lookupFS fs' q = findContent (filesOfL t []) q)
    ∧ (env.isRemote = true → (∀ p, fm.dlFails p = false) →
      allOkL (env.remoteTemplates
        (parseCliArguments env.args env.cwd).templateName) = true →
      (pathsOf (rFilesL (env.remoteTemplates
        (parseCliArguments env.args env.cwd).templateName) [])).Nodup →
      (mainModel env fm dest0).code = 0
      ∧ ∃ fs', (mainModel env fm dest0).dest = some fs'
        ∧ ∀ q, lookupFS fs' q = findContent (rFilesL (env.remoteTemplates
            (parseCliArguments env.args env.cwd).templateName) []) q) := by
  constructor
  · intro t hrem hfind hnd
    have hout : mainModel env fm dest0 =
        { code := 0, dest := some (applyList fm (filesOfL t []) [])
          tempExists := false
          log := [] ++ [.copyingMsg] ++ extraLog fm (filesOfL t []) [] ++
            [.successMsg] ++
            (if (parseCliArguments env.args env.cwd).isCurrentDir then []
             else [.navigationHint (parseCliArguments env.args env.cwd).projectName]) } := by
      rcases hdest with h | h <;> subst h <;>
        simp [mainModel, h1, h2, hrem, hfind, createProject, createProjectCopy,
          copyFiles_writeSafe fm hw, List.isEmpty, List.append_assoc]
    rw [hout]
    exact ⟨rfl, applyList fm (filesOfL t []) [], rfl,
      applyList_empty_lookup fm (filesOfL t []) hnd⟩
  · intro hrem hdf hok hnd
    have hdl := downloadFromGitHub_fresh fm hdf
      (env.remoteTemplates (parseCliArguments env.args env.cwd).templateName)
      hok [] hnd
      ("templates/" ++ (parseCliArguments env.args env.cwd).templateName)
      [] [.fetchingFromGitHub] (fun pc _ => rfl)
    rw [writeAll_fresh _ [] hnd (fun pc _ => rfl), List.nil_append] at hdl
    by_cases hrt : fm.removeTempFails <;>
    · have hout : mainModel env fm dest0 =
          { code := 0
            dest := some (applyList fm (rFilesL (env.remoteTemplates
              (parseCliArguments env.args env.cwd).templateName) []) [])
            tempExists := fm.removeTempFails
            log := ([.fetchingFromGitHub] ++ [.copyingMsg] ++
              extraLog fm (rFilesL (env.remoteTemplates
                (parseCliArguments env.args env.cwd).templateName) []) [] ++
              [.successMsg] ++
              (if (parseCliArguments env.args env.cwd).isCurrentDir then []
               else [.navigationHint (parseCliArguments env.args env.cwd).projectName])) ++
              (if fm.removeTempFails then [.cleanupWarning] else []) } := by
        rcases hdest with h | h <;> subst h <;>
          simp [mainModel, h1, h2, hrem, hdl, createProject, createProjectCopy,
            copyFiles_writeSafe fm hw, List.isEmpty, List.append_assoc, hrt]
      rw [hout]
      exact ⟨rfl, applyList fm (rFilesL (env.remoteTemplates
          (parseCliArguments env.args env.cwd).templateName) []) [], rfl,
        applyList_empty_lookup fm _ hnd⟩

/-- C5, witness: a one-file template scaffolded into an absent
destination, once from the local root and once from a fully answering
remote listing; both exit 0 and the destination equals the template. -/
theorem C5_witness :
    ((mainModel
      { isRemote := false, args := ["tpl"], cwd := "/w"
        localRoot := .cons (.dir "tpl" (.cons (.file "a" "x") .nil)) .nil
        remoteTemplates := fun _ => .notFound, remoteRoot := .notFound
        confirmAnswer := false } noFaults none).code = 0
    ∧ (mainModel
      { isRemote := false, args := ["tpl"], cwd := "/w"
        localRoot := .cons (.dir "tpl" (.cons (.file "a" "x") .nil)) .nil
        remoteTemplates := fun _ => .notFound, remoteRoot := .notFound
        confirmAnswer := false } noFaults none).dest = some [(["a"], "x")])
    ∧ ((mainModel
      { isRemote := true, args := ["tpl"], cwd := "/w", localRoot := .nil
        remoteTemplates := fun _ => .ok (.cons (.file "a" "x") .nil)
        remoteRoot := .notFound
        confirmAnswer := false } noFaults none).code = 0
    ∧ (mainModel
      { isRemote := true, args := ["tpl"], cwd := "/w", localRoot := .nil
        remoteTemplates := fun _ => .ok (.cons (.file "a" "x") .nil)
        remoteRoot := .notFound
        confirmAnswer := false } noFaults none).dest = some [(["a"], "x")]) :=
  ⟨⟨((C5_claim
      { isRemote := false, args := ["tpl"], cwd := "/w"
        localRoot := .cons (.dir "tpl" (.cons (.file "a" "x") .nil)) .nil
        remoteTemplates := fun _ => .notFound, remoteRoot := .notFound
        confirmAnswer := false } noFaults none noFaults_writeSafe
      (by decide) (by decide) (Or.inl rfl)).1
      (.cons (.file "a" "x") .nil) rfl (by decide) (by decide)).1,
    by decide⟩,
   ⟨((C5_claim
      { isRemote := true, args := ["tpl"], cwd := "/w", localRoot := .nil
        remoteTemplates := fun _ => .ok (.cons (.file "a" "x") .nil)
        remoteRoot := .notFound
        confirmAnswer := false } noFaults none noFaults_writeSafe
      (by decide) (by decide) (Or.inl rfl)).2
      rfl (fun _ => rfl) (by decide) (by decide)).1,
    by decide⟩⟩

theorem printedTemplates_map (ns : List String) :
    printedTemplates (ns.map LogMsg.templateListEntry) = ns := by
  induction ns with
  | nil => rfl
  | cons n rest ih => simp [printedTemplates, ih]

/-- C3, confirmed.  For every invocation — local or remote — where the
destination exists and is non-empty and the user declines the
confirmation, the run prints `Aborting.`, exits 0, and the destination
is byte-for-byte unchanged (the preview only reads).  Locally the
template resolved to a subdirectory; remotely the download step
succeeded and the prompt is reached the same way. -/
theorem C3_claim (env : Env) (fm : FaultModel) (fs : FS)
    (h1 : (parseCliArguments env.args env.cwd).templateName ≠ "list")
    (h2 : (parseCliArguments env.args env.cwd).templateName ≠ "")
    (hne : fs ≠ [])
    (hconf : env.confirmAnswer = false) :
    (∀ t : EntryList, env.isRemote = false →
      findTemplateL env.localRoot
        (parseCliArguments env.args env.cwd).templateName = some t →
      (mainModel env fm (some fs)).code = 0
      ∧ (mainModel env fm (some fs)).dest = some fs
      ∧ LogMsg.aborting ∈ (mainModel env fm (some fs)).log)
    ∧ (∀ (tfs : FS) (dlg : List LogMsg), env.isRemote = true →
      downloadFromGitHub fm
        ("templates/" ++ (parseCliArguments env.args env.cwd).templateName) []
        (env.remoteTemplates (parseCliArguments env.args env.cwd).templateName)
        [] [.fetchingFromGitHub] = .ok (tfs, dlg) →
      (mainModel env fm (some fs)).code = 0
      ∧ (mainModel env fm (some fs)).dest = some fs
      ∧ LogMsg.aborting ∈ (mainModel env fm (some fs)).log) := by
  have hemp : fs.isEmpty = false := by
    cases fs with
    | nil => exact absurd rfl hne
    | cons a l => rfl
  constructor
  · intro t hrem hfind
    refine ⟨?_, ?_, ?_⟩ <;>
      simp [mainModel, h1, h2, hrem, hfind, createProject, hemp, hconf]
  · intro tfs dlg hrem hdl
    refine ⟨?_, ?_, ?_⟩ <;>
      simp [mainModel, h1, h2, hrem, hdl, createProject, hemp, hconf]

/-- C3, witness: one-file template, one-file destination, declined
confirmation — once with a local template, once with a remote one whose
download succeeded. -/
theorem C3_witness :
    ((mainModel
      { isRemote := false, args := ["tpl"], cwd := "/w"
        localRoot := .cons (.dir "tpl" (.cons (.file "a" "x") .nil)) .nil
        remoteTemplates := fun _ => .notFound, remoteRoot := .notFound
        confirmAnswer := false } noFaults (some [(["f"], "z")])).code = 0
    ∧ (mainModel
      { isRemote := false, args := ["tpl"], cwd := "/w"
        localRoot := .cons (.dir "tpl" (.cons (.file "a" "x") .nil)) .nil
        remoteTemplates := fun _ => .notFound, remoteRoot := .notFound
        confirmAnswer := false } noFaults (some [(["f"], "z")])).dest = some [(["f"], "z")]
    ∧ LogMsg.aborting ∈ (mainModel
      { isRemote := false, args := ["tpl"], cwd := "/w"
        localRoot := .cons (.dir "tpl" (.cons (.file "a" "x") .nil)) .nil
        remoteTemplates := fun _ => .notFound, remoteRoot := .notFound
        confirmAnswer := false } noFaults (some [(["f"], "z")])).log)
    ∧ ((mainModel
      { isRemote := true, args := ["tpl"], cwd := "/w", localRoot := .nil
        remoteTemplates := fun _ => .ok (.cons (.file "a" "x") .nil)
        remoteRoot := .notFound
        confirmAnswer := false } noFaults (some [(["f"], "z")])).code = 0
    ∧ (mainModel
      { isRemote := true, args := ["tpl"], cwd := "/w", localRoot := .nil
        remoteTemplates := fun _ => .ok (.cons (.file "a" "x") .nil)
        remoteRoot := .notFound
        confirmAnswer := false } noFaults (some [(["f"], "z")])).dest = some [(["f"], "z")]
    ∧ LogMsg.aborting ∈ (mainModel
      { isRemote := true, args := ["tpl"], cwd := "/w", localRoot := .nil
        remoteTemplates := fun _ => .ok (.cons (.file "a" "x") .nil)
        remoteRoot := .notFound
        confirmAnswer := false } noFaults (some [(["f"], "z")])).log) :=
  ⟨(C3_claim
      { isRemote := false, args := ["tpl"], cwd := "/w"
        localRoot := .cons (.dir "tpl" (.cons (.file "a" "x") .nil)) .nil
        remoteTemplates := fun _ => .notFound, remoteRoot := .notFound
        confirmAnswer := false } noFaults [(["f"], "z")]
      (by decide) (by decide) (by decide) rfl).1
      (.cons (.file "a" "x") .nil) rfl (by decide),
   (C3_claim
      { isRemote := true, args := ["tpl"], cwd := "/w", localRoot := .nil
        remoteTemplates := fun _ => .ok (.cons (.file "a" "x") .nil)
        remoteRoot := .notFound
        confirmAnswer := false } noFaults [(["f"], "z")]
      (by decide) (by decide) (by decide) rfl).2
      [(["a"], "x")] [.fetchingFromGitHub] rfl (by decide)⟩

/-- C7, confirmed.  A template name that resolves nowhere exits 1 and
writes nothing to the destination: locally when the subdirectory is
missing, remotely when the top-level listing answers 404 (the fresh temp
directory is created, but the destination is untouched). -/
theorem C7_claim (env : Env) (fm : FaultModel) (dest0 : Option FS)
    (h1 : (parseCliArguments env.args env.cwd).templateName ≠ "list")
    (h2 : (parseCliArguments env.args env.cwd).templateName ≠ "") :
    (env.isRemote = false →
      findTemplateL env.localRoot
        (parseCliArguments env.args env.cwd).templateName = none →
      (mainModel env fm dest0).code = 1 ∧ (mainModel env fm dest0).dest = dest0)
    ∧ (env.isRemote = true →
      env.remoteTemplates (parseCliArguments env.args env.cwd).templateName =
        RListing.notFound →
      (mainModel env fm dest0).code = 1 ∧ (mainModel env fm dest0).dest = dest0) := by
  constructor
  · intro hrem hfind
    constructor <;> simp [mainModel, h1, h2, hrem, hfind]
  · intro hrem hrt
    have hdl := downloadFromGitHub_notFound_exits fm
      ("templates/" ++ (parseCliArguments env.args env.cwd).templateName) []
      [] [.fetchingFromGitHub]
      (strStartsWith_append "templates/" (parseCliArguments env.args env.cwd).templateName)
    constructor <;> simp [mainModel, h1, h2, hrem, hrt, hdl]

/-- C7, witness: a name absent from the local root exits 1 with the
destination untouched; the same name 404ing remotely exits 1 likewise. -/
theorem C7_witness :
    ((mainModel
      { isRemote := false, args := ["nope"], cwd := "/w"
        localRoot := .cons (.dir "tpl" .nil) .nil
        remoteTemplates := fun _ => .notFound, remoteRoot := .notFound
        confirmAnswer := false } noFaults none).code = 1
    ∧ (mainModel
      { isRemote := false, args := ["nope"], cwd := "/w"
        localRoot := .cons (.dir "tpl" .nil) .nil
        remoteTemplates := fun _ => .notFound, remoteRoot := .notFound
        confirmAnswer := false } noFaults none).dest = none)
    ∧ ((mainModel
      { isRemote := true, args := ["nope"], cwd := "/w"
        localRoot := .nil
        remoteTemplates := fun _ => .notFound, remoteRoot := .notFound
        confirmAnswer := false } noFaults none).code = 1
    ∧ (mainModel
      { isRemote := true, args := ["nope"], cwd := "/w"
        localRoot := .nil
        remoteTemplates := fun _ => .notFound, remoteRoot := .notFound
        confirmAnswer := false } noFaults none).dest = none) :=
  ⟨(C7_claim
      { isRemote := false, args := ["nope"], cwd := "/w"
        localRoot := .cons (.dir "tpl" .nil) .nil
        remoteTemplates := fun _ => .notFound, remoteRoot := .notFound
        confirmAnswer := false } noFaults none (by decide) (by decide)).1 rfl (by decide),
   (C7_claim
      { isRemote := true, args := ["nope"], cwd := "/w"
        localRoot := .nil
        remoteTemplates := fun _ => .notFound, remoteRoot := .notFound
        confirmAnswer := false } noFaults none (by decide) (by decide)).2 rfl rfl⟩

/-- C8, confirmed.  The `list` command exits 0, creates no project
directory, and prints exactly the names of the directory entries of the
templates root (files excluded): locally those of `readDirSync`,
remotely the `dir`-typed items of the listing of `templates`. -/
theorem C8_claim (env : Env) (fm : FaultModel) (dest0 : Option FS)
    (hargs : env.args = ["list"]) :
    (mainModel env fm dest0).code = 0
    ∧ (mainModel env fm dest0).dest = dest0
    ∧ (env.isRemote = false →
        printedTemplates (mainModel env fm dest0).log = dirNamesL env.localRoot)
    ∧ (∀ items, env.isRemote = true → env.remoteRoot = .ok items →
        printedTemplates (mainModel env fm dest0).log = itemDirNames items) := by
  have hname : (parseCliArguments env.args env.cwd).templateName = "list" := by
    rw [hargs]; rfl
  refine ⟨?_, ?_, ?_, ?_⟩
  · simp [mainModel, hname]
  · simp [mainModel, hname]
  · intro hrem
    simp [mainModel, hname, templatesLog, hrem, printedTemplates,
      printedTemplates_map]
  · intro items hrem hro
    simp [mainModel, hname, templatesLog, hrem, hro, printedTemplates,
      printedTemplates_map]

/-- C8, witness: a root with directories `a`, `b`, `c` and one plain
file prints exactly `a`, `b`, `c` and exits 0 with no project created. -/
theorem C8_witness :
    (mainModel
      { isRemote := false, args := ["list"], cwd := "/w"
        localRoot := .cons (.dir "a" .nil) (.cons (.file "f" "z")
          (.cons (.dir "b" .nil) (.cons (.dir "c" .nil) .nil)))
        remoteTemplates := fun _ => .notFound, remoteRoot := .notFound
        confirmAnswer := false } noFaults none).code = 0
    ∧ (mainModel
      { isRemote := false, args := ["list"], cwd := "/w"
        localRoot := .cons (.dir "a" .nil) (.cons (.file "f" "z")
          (.cons (.dir "b" .nil) (.cons (.dir "c" .nil) .nil)))
        remoteTemplates := fun _ => .notFound, remoteRoot := .notFound
        confirmAnswer := false } noFaults none).dest = none
    ∧ printedTemplates (mainModel
      { isRemote := false, args := ["list"], cwd := "/w"
        localRoot := .cons (.dir "a" .nil) (.cons (.file "f" "z")
          (.cons (.dir "b" .nil) (.cons (.dir "c" .nil) .nil)))
        remoteTemplates := fun _ => .notFound, remoteRoot := .notFound
        confirmAnswer := false } noFaults none).log = ["a", "b", "c"] :=
  ⟨(C8_claim
      { isRemote := false, args := ["list"], cwd := "/w"
        localRoot := .cons (.dir "a" .nil) (.cons (.file "f" "z")
          (.cons (.dir "b" .nil) (.cons (.dir "c" .nil) .nil)))
        remoteTemplates := fun _ => .notFound, remoteRoot := .notFound
        confirmAnswer := false } noFaults none rfl).1,
   (C8_claim
      { isRemote := false, args := ["list"], cwd := "/w"
        localRoot := .cons (.dir "a" .nil) (.cons (.file "f" "z")
          (.cons (.dir "b" .nil) (.cons (.dir "c" .nil) .nil)))
        remoteTemplates := fun _ => .notFound, remoteRoot := .notFound
        confirmAnswer := false } noFaults none rfl).2.1,
   ((C8_claim
      { isRemote := false, args := ["list"], cwd := "/w"
        localRoot := .cons (.dir "a" .nil) (.cons (.file "f" "z")
          (.cons (.dir "b" .nil) (.cons (.dir "c" .nil) .nil)))
        remoteTemplates := fun _ => .notFound, remoteRoot := .notFound
        confirmAnswer := false } noFaults none rfl).2.2.1 rfl).trans (by decide)⟩

theorem createProjectCopy_ok_getLast (fm : FaultModel)
    (src : List (RelPath × String)) (opts : CliOptions) (fs : FS)
    (lg : List LogMsg) (fs' : FS) (lg' : List LogMsg)
    (h : createProjectCopy fm src opts fs lg = .ok (fs', lg')) :
    lg'.getLast? = some (if opts.isCurrentDir then LogMsg.successMsg
      else LogMsg.navigationHint opts.projectName) := by
  unfold createProjectCopy at h
  cases hc : copyFiles fm src fs (lg ++ [.copyingMsg]) with
  | error r =>
    rw [hc] at h
    cases h
  | ok r =>
    rw [hc] at h
    simp only [Except.ok.injEq, Prod.mk.injEq] at h
    obtain ⟨-, hlg⟩ := h
    subst hlg
    by_cases hcd : opts.isCurrentDir <;>
      simp [hcd, List.getLast?_concat]

/-- C9, counterexample.  The claim says a second argument equal to the
empty string is canonicalized to the project name `.` and suppresses the
navigation hint.  But `Deno.args[1] || templateName` treats the empty
string as absent (JS falsiness): the project name falls back to the
template name `foo`, which is not a current-directory alias, so the hint
is not suppressed. -/
theorem C9_counterexample :
    (parseCliArguments ["foo", ""] "/home/user").projectName = "foo"
    ∧ (parseCliArguments ["foo", ""] "/home/user").isCurrentDir = false := by
  decide

/-- C9, amended.  A second argument equal to `.`, `./`, or the absolute
current working directory is canonicalized to the project name `.` and
suppresses the navigation hint; an empty-string second argument is
instead treated like an absent one, so the project name falls back to
the template name.  With no second argument the project name defaults to
the template name, and the hint is printed provided the template name is
not itself a current-directory alias.  The hint is printed on success
exactly when the parsed options do not mark the current directory. -/
theorem C9_claim :
    (∀ (tn a cwd : String), a ≠ "" → (a = "." ∨ a = "./" ∨ a = cwd) →
      parseCliArguments [tn, a] cwd =
        { templateName := tn, projectName := ".", isCurrentDir := true })
    ∧ (∀ (tn cwd : String),
      parseCliArguments [tn, ""] cwd = parseCliArguments [tn] cwd)
    ∧ (∀ (tn cwd : String), tn ≠ "." → tn ≠ "./" → tn ≠ "" → tn ≠ cwd →
      parseCliArguments [tn] cwd =
        { templateName := tn, projectName := tn, isCurrentDir := false })
    ∧ (∀ (fm : FaultModel) (src : List (RelPath × String)) (opts : CliOptions)
        (conf : Bool) (dest0 : Option FS) (lg : List LogMsg) (fs' : FS)
        (lg' : List LogMsg),
      createProject fm src opts conf dest0 lg = .ok (fs', lg') →
      lg'.getLast? = some (if opts.isCurrentDir then LogMsg.successMsg
        else LogMsg.navigationHint opts.projectName)) := by
  refine ⟨?_, ?_, ?_, ?_⟩
  · intro tn a cwd ha hcase
    rcases hcase with h | h | h <;> subst h <;>
      simp [parseCliArguments, jsOrElse, ha]
  · intro tn cwd
    rfl
  · intro tn cwd h1 h2 h3 h4
    simp [parseCliArguments, jsOrElse, h1, h2, h3, h4]
  · intro fm src opts conf dest0 lg fs' lg' h
    cases dest0 with
    | none =>
      simp only [createProject] at h
      exact createProjectCopy_ok_getLast fm src opts [] lg fs' lg' h
    | some fs =>
      simp only [createProject] at h
      by_cases hemp : fs.isEmpty
      · rw [if_pos hemp] at h
        exact createProjectCopy_ok_getLast fm src opts fs lg fs' lg' h
      · rw [if_neg hemp] at h
        by_cases hconf : conf
        · rw [if_pos hconf] at h
          exact createProjectCopy_ok_getLast fm src opts fs _ fs' lg' h
        · rw [if_neg hconf] at h
          cases h

/-- C9, witness: the amended behaviour at concrete inputs — `.` and the
cwd are canonicalized, the empty string behaves like an absent argument,
a plain template name defaults without the current-directory mark, and a
successful `createProject` ends its log with the success line (hint
suppressed) when the options mark the current directory. -/
theorem C9_witness :
    parseCliArguments ["foo", "."] "/w" =
      { templateName := "foo", projectName := ".", isCurrentDir := true }
    ∧ parseCliArguments ["foo", ""] "/w" = parseCliArguments ["foo"] "/w"
    ∧ parseCliArguments ["foo"] "/w" =
      { templateName := "foo", projectName := "foo", isCurrentDir := false }
    ∧ [LogMsg.copyingMsg, LogMsg.successMsg].getLast? =
      some (if ({ templateName := "t", projectName := ".", isCurrentDir := true } :
        CliOptions).isCurrentDir then LogMsg.successMsg
        else LogMsg.navigationHint ".") :=
  ⟨C9_claim.1 "foo" "." "/w" (by decide) (Or.inl rfl),
   C9_claim.2.1 "foo" "/w",
   C9_claim.2.2.1 "foo" "/w" (by decide) (by decide) (by decide) (by decide),
   C9_claim.2.2.2 noFaults [] { templateName := "t", projectName := ".", isCurrentDir := true }
     false none [] [] [LogMsg.copyingMsg, LogMsg.successMsg] (by decide)⟩

/-- C2, counterexample.  The claim says the temp directory is removed
after the copy step regardless of whether the copy succeeded or failed.
But a copy failure makes `createProject` call `Deno.exit(1)`, so `main`
never reaches the cleanup: in this remote run the single file's copy
throws, the process exits 1, and the temp directory still exists. -/
theorem C2_counterexample :
    (mainModel
      { isRemote := true, args := ["t", "p"], cwd := "/w", localRoot := .nil
        remoteTemplates := fun _ => .ok (.cons (.file "a" "x") .nil)
        remoteRoot := .notFound, confirmAnswer := false }
      { backupFails := fun _ => false, removeFails := fun _ => false
        copyFails := fun p => decide (p = ["a"]), dlFails := fun _ => false
        removeTempFails := false } (some [])).code = 1
    ∧ (mainModel
      { isRemote := true, args := ["t", "p"], cwd := "/w", localRoot := .nil
        remoteTemplates := fun _ => .ok (.cons (.file "a" "x") .nil)
        remoteRoot := .notFound, confirmAnswer := false }
      { backupFails := fun _ => false, removeFails := fun _ => false
        copyFails := fun p => decide (p = ["a"]), dlFails := fun _ => false
        removeTempFails := false } (some [])).tempExists = true := by
  decide

/-- C2, amended.  For a remote invocation whose download succeeded: when
`createProject` returns (the copy succeeded), the temp directory removal
is attempted — it remains only if the removal itself fails, which is
logged as a warning and leaves the exit code 0; when `createProject`
exits 1 (the copy failed), the process ends inside it and the temp
directory is not removed. -/
theorem C2_claim (env : Env) (fm : FaultModel) (dest0 : Option FS) (tfs : FS)
    (dlg : List LogMsg)
    (hrem : env.isRemote = true)
    (h1 : (parseCliArguments env.args env.cwd).templateName ≠ "list")
    (h2 : (parseCliArguments env.args env.cwd).templateName ≠ "")
    (hdl : downloadFromGitHub fm
      ("templates/" ++ (parseCliArguments env.args env.cwd).templateName) []
      (env.remoteTemplates (parseCliArguments env.args env.cwd).templateName)
      [] [.fetchingFromGitHub] = .ok (tfs, dlg)) :
    (∀ (fs' : FS) (lg' : List LogMsg),
      createProject fm tfs (parseCliArguments env.args env.cwd)
        env.confirmAnswer dest0 dlg = .ok (fs', lg') →
      (mainModel env fm dest0).code = 0
      ∧ (mainModel env fm dest0).tempExists = fm.removeTempFails
      ∧ (fm.removeTempFails = true →
          LogMsg.cleanupWarning ∈ (mainModel env fm dest0).log))
    ∧ (∀ (d : Option FS) (lg' : List LogMsg),
      createProject fm tfs (parseCliArguments env.args env.cwd)
        env.confirmAnswer dest0 dlg = .error (1, d, lg') →
      (mainModel env fm dest0).code = 1
      ∧ (mainModel env fm dest0).tempExists = true) := by
  constructor
  · intro fs' lg' hcp
    by_cases hrt : fm.removeTempFails
    · refine ⟨?_, ?_, ?_⟩ <;>
        simp [mainModel, h1, h2, hrem, hdl, hcp, hrt]
    · refine ⟨?_, ?_, fun hc => absurd hc (by simp [hrt])⟩ <;>
        simp [mainModel, h1, h2, hrem, hdl, hcp, hrt]
  · intro d lg' hcp
    constructor <;> simp [mainModel, h1, h2, hrem, hdl, hcp]

/-- C2, witness: a remote run whose single file copies successfully and
whose temp-dir removal succeeds exits 0 with the temp directory gone. -/
theorem C2_witness :
    (mainModel
      { isRemote := true, args := ["t", "p"], cwd := "/w", localRoot := .nil
        remoteTemplates := fun _ => .ok (.cons (.file "a" "x") .nil)
        remoteRoot := .notFound, confirmAnswer := false } noFaults (some [])).code = 0
    ∧ (mainModel
      { isRemote := true, args := ["t", "p"], cwd := "/w", localRoot := .nil
        remoteTemplates := fun _ => .ok (.cons (.file "a" "x") .nil)
        remoteRoot := .notFound, confirmAnswer := false } noFaults
        (some [])).tempExists = noFaults.removeTempFails := by
  have h := (C2_claim
    { isRemote := true, args := ["t", "p"], cwd := "/w", localRoot := .nil
      remoteTemplates := fun _ => .ok (.cons (.file "a" "x") .nil)
      remoteRoot := .notFound, confirmAnswer := false } noFaults (some [])
    [(["a"], "x")] [.fetchingFromGitHub] rfl (by decide) (by decide)
    (by decide)).1 [(["a"], "x")]
    [.fetchingFromGitHub, .copyingMsg, .successMsg, .navigationHint "p"]
    (by decide)
  exact ⟨h.1, h.2.1⟩
